import Mathlib

/-!
# CitizenLink field-test data collector: mission and entry state engine

A shallow embedding of `collector.js`.  The mutable `AppState` object becomes an
explicit record that every handler takes and returns.  JavaScript numbers that carry
coordinates and distances are elements of an arbitrary linearly ordered field `K`
(instantiate `K := ℚ` to evaluate).  What the program reads from its surroundings is
passed in explicitly: Leaflet's `distanceTo` and the `Math` functions through `Env`,
the form fields, the clock, the random draws and the navigator through `SubmitInput`.

Not modelled (display only): the Leaflet map and its layers, the target circle, the
bottom sheet, toasts, the measurement tool, the tile-layer switcher and the consent
dialog.  Leaflet marker objects are kept as opaque handles, because the history stacks
store them.
-/

set_option autoImplicit false

namespace Collector

/-! ## JavaScript strings -/

/-- Code units `String.prototype.length` counts for one code point: two for a code point
outside the basic multilingual plane, one otherwise. -/
def utf16Units (c : Char) : Nat :=
  if c.toNat < 65536 then 1 else 2

/-- The value of `s.length` in JavaScript: the number of UTF-16 code units. -/
def jsLength (s : String) : Nat :=
  (s.data.map utf16Units).sum

/-- Code points that `String.prototype.trim` strips: ECMAScript `WhiteSpace` and
`LineTerminator`. -/
def isJsWhiteSpace (c : Char) : Bool :=
  let n := c.toNat
  n == 9 || n == 10 || n == 11 || n == 12 || n == 13 || n == 32 || n == 160 ||
  n == 5760 || (8192 ≤ n && n ≤ 8202) || n == 8232 || n == 8233 || n == 8239 ||
  n == 8287 || n == 12288 || n == 65279

/-- The method `String.prototype.trim`: white space removed from both ends. -/
def jsTrim (s : String) : String :=
  String.mk ((s.data.dropWhile isJsWhiteSpace).reverse.dropWhile isJsWhiteSpace).reverse

/-! ## Form validation -/

/-- One element of the array `validateForm` returns. -/
structure ValidationError where
  field : String
  message : String
deriving DecidableEq, Repr

/-- The function `validateForm()`, as a function of `DOM.descriptionInput.value`. -/
def validateForm (descriptionInput : String) : List ValidationError :=
  let description := jsTrim descriptionInput
  if description = "" then
    [{ field := "descriptionInput", message := "Description is required" }]
  else if jsLength description < 10 then
    [{ field := "descriptionInput", message := "Description must be at least 10 characters" }]
  else
    []

/-! ## Categories -/

/-- The object `CATEGORY_SUBCATEGORIES`, as the list `Object.entries` makes of it: the
keys in the order they are written. -/
def CATEGORY_SUBCATEGORIES : List (String × List String) :=
  [("Infrastructure",
      ["Pothole", "Road Damage", "Broken Sidewalk", "Streetlight", "Damaged Bridge",
       "Drainage Issue", "Others"]),
   ("Utilities",
      ["No Water", "Low Water Pressure", "Pipe Leak", "Power Outage", "Damaged Power Line",
       "Internet Issue", "Others"]),
   ("Public Safety",
      ["Fire", "Crime", "Stray Animals", "Vandalism", "Unsafe Structure", "Missing Signage",
       "Others"]),
   ("Sanitation",
      ["Garbage Collection", "Illegal Dumping", "Overflowing Trash", "Clogged Drain",
       "Bad Odor", "Pest Infestation", "Others"]),
   ("Traffic",
      ["Traffic Light Issue", "Road Obstruction", "Illegal Parking", "Missing Road Signs",
       "Traffic Congestion", "Accident", "Others"]),
   ("Environment",
      ["Flood", "Fallen Tree", "Air Pollution", "Water Pollution", "Soil Erosion",
       "Illegal Burning", "Others"]),
   ("Others", ["Others"])]

/-- The loop of `mapSubcategoryToCategory` over the entries still to visit, with the
`return 'Others'` that follows it. -/
def mapSubcategoryLoop (subcategory : String) : List (String × List String) → String
  | [] => "Others"
  | (category, subcategories) :: rest =>
    if subcategory ∈ subcategories then category else mapSubcategoryLoop subcategory rest

/-- The function `mapSubcategoryToCategory(subcategory)`. -/
def mapSubcategoryToCategory (subcategory : String) : String :=
  mapSubcategoryLoop subcategory CATEGORY_SUBCATEGORIES

/-- The characters `0` to `9` and `a` to `f`. -/
def isLowerHex (c : Char) : Bool :=
  (48 ≤ c.toNat && c.toNat ≤ 57) || (97 ≤ c.toNat && c.toNat ≤ 102)

/-! ## Data model -/

/-- A Leaflet `LatLng`. -/
structure LatLng (K : Type) where
  lat : K
  lng : K
deriving DecidableEq, Repr

/-- What the program uses from Leaflet and from `Math`. -/
structure Env (K : Type) where
  /-- Leaflet `a.distanceTo(b)`, in metres. -/
  distanceTo : LatLng K → LatLng K → K
  /-- The function `Math.atan2(y, x)`. -/
  atan2 : K → K → K
  /-- The function `Math.cos`. -/
  cos : K → K
  /-- The function `Math.sin`. -/
  sin : K → K
  /-- The constant `Math.PI`. -/
  PI : K

/-- A mission of `AppState.missions`; also the shape of a record of `mission_config.json`,
whose `status` and `entriesCollected` are overwritten on load. -/
structure Mission (K : Type) where
  id : String
  title : String
  instruction : String
  target : LatLng K
  boundary_radius : Option K
  required_count : Int
  suggested_category : Option String
  zoom : Option K
  status : String
  entriesCollected : Int
deriving DecidableEq, Repr

/-- The object `getDeviceInfo()` returns. -/
structure DeviceInfo (K : Type) where
  userAgent : String
  screenWidth : Int
  screenHeight : Int
  pixelRatio : K
  platform : String
  language : String
deriving DecidableEq, Repr

/-- An element of `AppState.collectedData`. -/
structure Entry (K : Type) where
  id : String
  user_id : Option String
  user_name : Option String
  _mission_id : String
  _mission_title : String
  _entry_number : Int
  descriptive_su : String
  latitude : K
  longitude : K
  category : String
  subcategory : String
  department_r : List String
  preferred_departments : List String
  workflow_status : String
  priority : String
  status : String
  confirmation_status : String
  is_duplicate : Bool
  confirmed_by_citizen : Bool
  all_responders_confirmed : Bool
  submitted_at : String
  updated_at : String
  last_activity_at : String
  _device_info : DeviceInfo K
  _collected_at : String
deriving DecidableEq, Repr

/-- Identity of a Leaflet marker object. -/
abbrev Marker := Nat

/-- The draggable pin `handleMapClick` creates, with the two values its `dragend`
handler closes over. -/
structure TempMarker (K : Type) where
  marker : Marker
  targetLatLng : LatLng K
  boundaryRadius : K
deriving DecidableEq, Repr

/-- An element of `AppState.undoStack` or `AppState.redoStack`. -/
structure Action (K : Type) where
  entry : Entry K
  marker : Marker
  missionId : String
  entryIndex : Int
deriving DecidableEq, Repr

/-- The object `AppState`.  Arrays are lists in array order, so `push` appends at the
end and `pop` takes the last element.  `activeMission` is a reference to an element of
`missions`: it is kept as the position of that element (a position past the end of
`missions` stands for no object, and the handlers then change nothing).  `nextMarker` is
not a field of the program: it numbers the marker objects created so far, to give each
its identity. -/
structure AppState (K : Type) where
  missions : List (Mission K)
  collectedData : List (Entry K)
  activeMission : Option Nat
  currentEntries : Int
  tempMarker : Option (TempMarker K)
  tempLatLng : Option (LatLng K)
  submittedMarkers : List Marker
  undoStack : List (Action K)
  redoStack : List (Action K)
  userId : Option String
  userName : Option String
  nextMarker : Nat
deriving Repr

/-- What `submitLocation` reads from outside `AppState`: the four form fields, the values
`Math.random() * 16 | 0` takes in `generateUUID` (in call order), the four readings of
`new Date().toISOString()` in the entry literal (in evaluation order), and the
navigator. -/
structure SubmitInput (K : Type) where
  descriptionInput : String
  categorySelect : String
  subcategorySelect : String
  prioritySelect : String
  draws : Nat → Fin 16
  now1 : String
  now2 : String
  now3 : String
  now4 : String
  deviceInfo : DeviceInfo K

/-- The member `export_info` of the export document. -/
structure ExportInfo where
  exported_at : String
  total_entries : Nat
  missions_completed : Nat
  total_missions : Nat
deriving DecidableEq, Repr

/-- One record of the member `mission_summary` of the export document. -/
structure MissionSummary where
  id : String
  title : String
  status : String
  entries_collected : Int
  required_count : Int
deriving DecidableEq, Repr

/-- The export document. -/
structure ExportDocument (K : Type) where
  export_info : ExportInfo
  mission_summary : List MissionSummary
  collected_data : List (Entry K)
deriving DecidableEq, Repr

section Engine

variable {K : Type} [LinearOrderedField K]

/-! ## Array helpers -/

/-- The call `xs.splice(start, 1)` as far as `xs` is concerned: a negative `start` counts from the
end, and nothing is removed when the resulting position is past the end. -/
def splice1 {α : Type} (xs : List α) (start : Int) : List α :=
  let len : Int := xs.length
  let actualStart : Int := if start < 0 then max (len + start) 0 else min start len
  xs.eraseIdx actualStart.toNat

/-- The position `xs.find(m => m.id === missionId)` stops at. -/
def findMissionIdx (missionId : String) : List (Mission K) → Option Nat
  | [] => none
  | m :: ms => if m.id = missionId then some 0 else (findMissionIdx missionId ms).map (· + 1)

/-- The list with the element at position `i` replaced by `f` of it: an in-place update
through a reference to that element. -/
def modifyAt {α : Type} (f : α → α) : Nat → List α → List α
  | _, [] => []
  | 0, x :: xs => f x :: xs
  | i + 1, x :: xs => x :: modifyAt f i xs

/-! ## Identifiers -/

/-- The digit `v.toString(16)` for `v < 16`. -/
def hexDigit (v : Nat) : Char :=
  "0123456789abcdef".data.getD v '0'

/-- The callback of `replace(/[xy]/g, ...)` run over the template from left to right;
`k` counts the draws already taken. -/
def generateUUIDAux (draws : Nat → Fin 16) : Nat → List Char → List Char
  | _, [] => []
  | k, c :: cs =>
    if c = 'x' then
      hexDigit (draws k).val :: generateUUIDAux draws (k + 1) cs
    else if c = 'y' then
      hexDigit (((draws k).val &&& 3) ||| 8) :: generateUUIDAux draws (k + 1) cs
    else
      c :: generateUUIDAux draws k cs

/-- The function `generateUUID()`. -/
def generateUUID (draws : Nat → Fin 16) : String :=
  String.mk (generateUUIDAux draws 0 "xxxxxxxx-xxxx-4xxx-yxxx-xxxxxxxxxxxx".data)

/-! ## Catalog -/

/-- The constant `MapConfig.actionZoneRadius`. -/
def actionZoneRadius : K := 20

/-- The expression `mission.boundary_radius || MapConfig.actionZoneRadius`: the fallback
is taken when the field is absent and when it is `0`. -/
def boundaryRadiusOf (mission : Mission K) : K :=
  match mission.boundary_radius with
  | none => actionZoneRadius
  | some r => if r = 0 then actionZoneRadius else r

/-- The assignment to `AppState.missions` in `loadMissions`, for the parsed
`mission_config.json`. -/
def loadMissions (missions : List (Mission K)) : List (Mission K) :=
  missions.map fun mission => { mission with status := "pending", entriesCollected := 0 }

/-- The object `AppState` when `init` has run: the initial object, with the identification
`acceptConsent` stored (if it ran in this page load) and the catalog `loadMissions`
assigned. -/
def initialState (userId userName : Option String) (missions : List (Mission K)) :
    AppState K where
  missions := loadMissions missions
  collectedData := []
  activeMission := none
  currentEntries := 0
  tempMarker := none
  tempLatLng := none
  submittedMarkers := []
  undoStack := []
  redoStack := []
  userId := userId
  userName := userName
  nextMarker := 0

/-! ## Handlers -/

/-- The function `clearMapElements()`. -/
def clearMapElements (s : AppState K) : AppState K :=
  let s1 : AppState K :=
    match s.tempMarker with
    | some _ => { s with tempMarker := none, tempLatLng := none }
    | none => s
  { s1 with submittedMarkers := [] }

/-- The function `selectMission(missionId)`. -/
def selectMission (missionId : String) (s : AppState K) : AppState K :=
  match findMissionIdx missionId s.missions with
  | none => s
  | some i =>
    match s.missions[i]? with
    | none => s
    | some mission =>
      clearMapElements
        { s with activeMission := some i, currentEntries := mission.entriesCollected }

/-- The function `backToMissionList()`. -/
def backToMissionList (s : AppState K) : AppState K :=
  clearMapElements { s with activeMission := none }

/-- The function `handleMapClick(e)` with `e.latlng = latlng`. -/
def handleMapClick (env : Env K) (latlng : LatLng K) (s : AppState K) : AppState K :=
  match s.activeMission with
  | none => s
  | some i =>
    match s.missions[i]? with
    | none => s
    | some mission =>
      let boundaryRadius := boundaryRadiusOf mission
      let targetLatLng : LatLng K := { lat := mission.target.lat, lng := mission.target.lng }
      let clickDistance := env.distanceTo targetLatLng latlng
      if clickDistance > boundaryRadius then s
      else
        { s with
          tempLatLng := some latlng
          tempMarker := some
            { marker := s.nextMarker, targetLatLng := targetLatLng,
              boundaryRadius := boundaryRadius }
          nextMarker := s.nextMarker + 1 }

/-- The point the `dragend` handler stores when the marker was dropped at `newLatLng`,
outside the boundary.  Where the program divides by zero (the cosine of the target
latitude is `0`) the quotient here is the one of `K`. -/
def constrainedLatLng (env : Env K) (targetLatLng : LatLng K) (boundaryRadius : K)
    (newLatLng : LatLng K) : LatLng K :=
  let bearing := env.atan2 (newLatLng.lng - targetLatLng.lng) (newLatLng.lat - targetLatLng.lat)
  let constrainedLat := targetLatLng.lat + (boundaryRadius / 111320) * env.cos bearing
  let constrainedLng := targetLatLng.lng +
    (boundaryRadius / (111320 * env.cos (targetLatLng.lat * env.PI / 180))) * env.sin bearing
  { lat := constrainedLat, lng := constrainedLng }

/-- The `dragend` handler of the pin, with `event.target.getLatLng() = newLatLng`.  The
handler exists only while the pin does. -/
def onDragEnd (env : Env K) (newLatLng : LatLng K) (s : AppState K) : AppState K :=
  match s.tempMarker with
  | none => s
  | some pin =>
    let newDistance := env.distanceTo pin.targetLatLng newLatLng
    if newDistance > pin.boundaryRadius then
      { s with
        tempLatLng :=
          some (constrainedLatLng env pin.targetLatLng pin.boundaryRadius newLatLng) }
    else
      { s with tempLatLng := some newLatLng }

/-- The `drag` handler of the pin, with `event.target.getLatLng() = latlng`. -/
def onDrag (latlng : LatLng K) (s : AppState K) : AppState K :=
  match s.tempMarker with
  | none => s
  | some _ => { s with tempLatLng := some latlng }

/-- The entry literal of `submitLocation`. -/
def newEntry (inp : SubmitInput K) (s : AppState K) (mission : Mission K)
    (tempLatLng : LatLng K) : Entry K where
  id := generateUUID inp.draws
  user_id := s.userId
  user_name := s.userName
  _mission_id := mission.id
  _mission_title := mission.title
  _entry_number := mission.entriesCollected + 1
  descriptive_su := jsTrim inp.descriptionInput
  latitude := tempLatLng.lat
  longitude := tempLatLng.lng
  category := inp.categorySelect
  subcategory := inp.subcategorySelect
  department_r := []
  preferred_departments := []
  workflow_status := "new"
  priority := inp.prioritySelect
  status := "pending"
  confirmation_status := "pending"
  is_duplicate := false
  confirmed_by_citizen := false
  all_responders_confirmed := false
  submitted_at := inp.now1
  updated_at := inp.now2
  last_activity_at := inp.now3
  _device_info := inp.deviceInfo
  _collected_at := inp.now4

/-- The two writes of `submitLocation` to the active mission: `entriesCollected++`, then
the completion check. -/
def recordSubmission (mission : Mission K) : Mission K :=
  let m1 := { mission with entriesCollected := mission.entriesCollected + 1 }
  if m1.entriesCollected ≥ m1.required_count then { m1 with status := "completed" } else m1

/-- The function `submitLocation()`. -/
def submitLocation (inp : SubmitInput K) (s : AppState K) : AppState K :=
  match s.activeMission, s.tempLatLng with
  | some i, some tempLatLng =>
    match s.missions[i]? with
    | none => s
    | some mission =>
      if (validateForm inp.descriptionInput).length > 0 then s
      else
        let entry := newEntry inp s mission tempLatLng
        let collectedData := s.collectedData ++ [entry]
        let submittedMarker : Marker := s.nextMarker
        { s with
          collectedData := collectedData
          missions := modifyAt recordSubmission i s.missions
          currentEntries := mission.entriesCollected + 1
          submittedMarkers := s.submittedMarkers ++ [submittedMarker]
          undoStack := s.undoStack ++
            [{ entry := entry, marker := submittedMarker, missionId := mission.id,
               entryIndex := (collectedData.length : Int) - 1 }]
          redoStack := []
          tempMarker := none
          tempLatLng := none
          nextMarker := s.nextMarker + 1 }
  | _, _ => s

/-- The writes of `undoLastSubmission` to the mission it found. -/
def reverseSubmission (mission : Mission K) : Mission K :=
  let m1 := { mission with entriesCollected := mission.entriesCollected - 1 }
  if m1.status = "completed" ∧ m1.entriesCollected < m1.required_count then
    { m1 with status := "pending" }
  else m1

/-- The writes of `redoLastUndo` to the mission it found. -/
def redoSubmission (mission : Mission K) : Mission K :=
  let m1 := { mission with entriesCollected := mission.entriesCollected + 1 }
  if m1.entriesCollected ≥ m1.required_count then { m1 with status := "completed" } else m1

/-- The block `const mission = AppState.missions.find(...); if (mission) ...` shared by
undo and redo: `f` is applied to the mission found, and `currentEntries` follows when that
mission has the id of the active one. -/
def updateFoundMission (f : Mission K → Mission K) (missionId : String) (s : AppState K) :
    AppState K :=
  match findMissionIdx missionId s.missions with
  | none => s
  | some j =>
    let missions := modifyAt f j s.missions
    let s1 := { s with missions := missions }
    match missions[j]?, s.activeMission with
    | some mission, some i =>
      match missions[i]? with
      | some active =>
        if active.id = missionId then { s1 with currentEntries := mission.entriesCollected }
        else s1
      | none => s1
    | _, _ => s1

/-- The function `undoLastSubmission()`. -/
def undoLastSubmission (s : AppState K) : AppState K :=
  match s.undoStack.getLast? with
  | none => s
  | some lastAction =>
    let s1 : AppState K :=
      { s with
        undoStack := s.undoStack.dropLast
        collectedData := splice1 s.collectedData lastAction.entryIndex
        submittedMarkers := s.submittedMarkers.erase lastAction.marker }
    let s2 := updateFoundMission reverseSubmission lastAction.missionId s1
    { s2 with redoStack := s2.redoStack ++ [lastAction] }

/-- The function `redoLastUndo()`. -/
def redoLastUndo (s : AppState K) : AppState K :=
  match s.redoStack.getLast? with
  | none => s
  | some lastUndo =>
    let marker : Marker := s.nextMarker
    let s1 : AppState K :=
      { s with
        redoStack := s.redoStack.dropLast
        collectedData := s.collectedData ++ [lastUndo.entry]
        submittedMarkers := s.submittedMarkers ++ [marker]
        nextMarker := s.nextMarker + 1 }
    let s2 := updateFoundMission redoSubmission lastUndo.missionId s1
    { s2 with
      undoStack := s2.undoStack ++
        [{ entry := lastUndo.entry, marker := marker, missionId := lastUndo.missionId,
           entryIndex := (s2.collectedData.length : Int) - 1 }] }

/-! ## Runs -/

/-- The events that reach the engine. -/
inductive Event (K : Type) where
  | selectMission (missionId : String)
  | backToMissionList
  | mapClick (latlng : LatLng K)
  | drag (latlng : LatLng K)
  | dragend (latlng : LatLng K)
  | submit (inp : SubmitInput K)
  | undo
  | redo

/-- The handler an event runs. -/
def step (env : Env K) (s : AppState K) : Event K → AppState K
  | .selectMission missionId => selectMission missionId s
  | .backToMissionList => backToMissionList s
  | .mapClick latlng => handleMapClick env latlng s
  | .drag latlng => onDrag latlng s
  | .dragend latlng => onDragEnd env latlng s
  | .submit inp => submitLocation inp s
  | .undo => undoLastSubmission s
  | .redo => redoLastUndo s

/-- The state after a sequence of events. -/
def run (env : Env K) (s : AppState K) (events : List (Event K)) : AppState K :=
  events.foldl (step env) s

/-- States the program can be in after `init`, for a given catalog file. -/
def Reachable (env : Env K) (userId userName : Option String) (catalog : List (Mission K))
    (s : AppState K) : Prop :=
  ∃ events : List (Event K), run env (initialState userId userName catalog) events = s

/-- The guards of `submitLocation` all pass: a mission is active, a pin is placed and
`validateForm` returns no error. -/
def submitAccepted (inp : SubmitInput K) (s : AppState K) : Bool :=
  match s.activeMission, s.tempLatLng with
  | some i, some _ => (s.missions[i]?).isSome && (validateForm inp.descriptionInput).length == 0
  | _, _ => false

/-! ## Invariants -/

/-- The count `countForMission(missionId)`: the number of ledger entries whose
`_mission_id` is `missionId`. -/
def countForMission (collectedData : List (Entry K)) (missionId : String) : Nat :=
  collectedData.countP fun e => e._mission_id = missionId

/-- The ledger mirrors the undo stack: the k-th action holds the k-th entry and the index
`k`, and every action of either stack names the mission of its entry. -/
structure StacksMirror (s : AppState K) : Prop where
  entries : s.undoStack.map (·.entry) = s.collectedData
  indices : s.undoStack.map (·.entryIndex) = (List.range s.undoStack.length).map Int.ofNat
  undoIds : ∀ a ∈ s.undoStack, a.missionId = a.entry._mission_id
  redoIds : ∀ a ∈ s.redoStack, a.missionId = a.entry._mission_id

/-- The active mission is the element `find` returns for its own id. -/
def ActiveIsFound (s : AppState K) : Prop :=
  ∀ i, s.activeMission = some i →
    ∃ m, s.missions[i]? = some m ∧ findMissionIdx m.id s.missions = some i

/-- A completed mission has reached its required count. -/
def CompletedSound (m : Mission K) : Prop :=
  m.status = "completed" → m.required_count ≤ m.entriesCollected

/-- The status of a mission says whether it has reached its required count. -/
def StatusSettled (m : Mission K) : Prop :=
  m.status = "completed" ↔ m.required_count ≤ m.entriesCollected

/-- Every mission an action of the undo stack resolves to has a settled status. -/
def UndoneSettled (s : AppState K) : Prop :=
  ∀ a ∈ s.undoStack, ∀ (j : Nat) (m : Mission K),
    findMissionIdx a.missionId s.missions = some j → s.missions[j]? = some m → StatusSettled m

/-- The invariants of the history mechanism that hold for every catalog. -/
structure HistoryInv (s : AppState K) : Prop where
  mirror : StacksMirror s
  active : ActiveIsFound s
  sound : ∀ m ∈ s.missions, CompletedSound m
  settled : UndoneSettled s

/-- Progress accounting: every mission counts the ledger entries that carry its id. -/
def Counted (s : AppState K) : Prop :=
  ∀ (j : Nat) (m : Mission K), s.missions[j]? = some m →
    m.entriesCollected = (countForMission s.collectedData m.id : Int)

/-- With a positive required count, the status is `completed` from the required count on
and `pending` below it. -/
def StatusTracks (m : Mission K) : Prop :=
  0 < m.required_count ∧
  ((m.status = "completed" ∧ m.required_count ≤ m.entriesCollected) ∨
   (m.status = "pending" ∧ m.entriesCollected < m.required_count))

/-- Progress accounting by id: the mission that `find` returns for an id counts the ledger
entries that carry this id. -/
def CountedFound (s : AppState K) : Prop :=
  ∀ (x : String) (j : Nat) (m : Mission K), findMissionIdx x s.missions = some j →
    s.missions[j]? = some m → m.entriesCollected = (countForMission s.collectedData x : Int)

/-- Every action of either stack names a mission that `find` finds in the catalog. -/
def ActionsNamed (s : AppState K) : Prop :=
  ∀ a, a ∈ s.undoStack ∨ a ∈ s.redoStack → findMissionIdx a.missionId s.missions ≠ none

/-- How a handler may change the catalog: one mission is rewritten by a function that
keeps its id and the two status properties. -/
def MissionsStep (l l1 : List (Mission K)) : Prop :=
  ∃ (f : Mission K → Mission K) (j : Nat),
    (∀ m, (f m).id = m.id) ∧
    (∀ m, CompletedSound m → CompletedSound (f m)) ∧
    (∀ m, StatusTracks m → StatusTracks (f m)) ∧
    l1 = modifyAt f j l

/-! ## Export -/

/-- The document `exportData` that `downloadData` builds, with `exportedAt` the reading
of `new Date().toISOString()` in it. -/
def exportData (exportedAt : String) (s : AppState K) : ExportDocument K where
  export_info :=
    { exported_at := exportedAt
      total_entries := s.collectedData.length
      missions_completed := (s.missions.filter fun m => m.status = "completed").length
      total_missions := s.missions.length }
  mission_summary := s.missions.map fun m =>
    { id := m.id, title := m.title, status := m.status,
      entries_collected := m.entriesCollected, required_count := m.required_count }
  collected_data := s.collectedData

/-- The function `downloadData()`: the state it leaves and the document it hands to the
browser as a file, if it does.  (`downloadData` is bound to a button and changes no state,
so it is not among the events of `step`.) -/
def downloadData (exportedAt : String) (s : AppState K) :
    AppState K × Option (ExportDocument K) :=
  if s.collectedData.length = 0 then (s, none)
  else (s, some (exportData exportedAt s))

/-! ## The local metre frame -/

/-- Metres north of `c`, at 111320 m per degree of latitude. -/
def northMetres (c p : LatLng K) : K :=
  111320 * (p.lat - c.lat)

/-- Metres east of `c`, at 111320 m times the cosine of the latitude of `c` per degree of
longitude. -/
def eastMetres (env : Env K) (c p : LatLng K) : K :=
  111320 * env.cos (c.lat * env.PI / 180) * (p.lng - c.lng)

end Engine

/-- The `Math` functions over the real numbers: cosine, sine, the number π, and
`atan2(y, x)` as the argument of `x + y i`, which lies in `(-π, π]`. -/
def RealMath (env : Env ℝ) : Prop :=
  env.cos = Real.cos ∧ env.sin = Real.sin ∧ env.PI = Real.pi ∧
  ∀ y x : ℝ, env.atan2 y x = Complex.arg ⟨x, y⟩

/-! ## A concrete session

One mission with the coordinates of the scenario of the specification, given over `ℚ`. -/

/-- A distance in metres at 111320 m per degree, summed over the two axes.  It stands in
for Leaflet's `distanceTo`, with which it agrees at distance zero. -/
def demoDistance (a b : LatLng ℚ) : ℚ :=
  111320 * (|a.lat - b.lat| + |a.lng - b.lng|)

/-- An environment to evaluate runs in.  The three `Math` functions are used by
`constrainedLatLng` only; they are given the values they take at `0`. -/
def demoEnv : Env ℚ where
  distanceTo := demoDistance
  atan2 := fun _ _ => 0
  cos := fun _ => 1
  sin := fun _ => 0
  PI := 355 / 113

/-- The mission of the scenario: target (6.7500, 125.3560), radius 20 m, two entries
required. -/
def demoMission : Mission ℚ where
  id := "m1"
  title := "Report a streetlight"
  instruction := "Mark a streetlight near the plaza."
  target := { lat := 27 / 4, lng := 31339 / 250 }
  boundary_radius := some 20
  required_count := 2
  suggested_category := some "Streetlight"
  zoom := none
  status := "pending"
  entriesCollected := 0

/-- Form contents, random draws, clock readings and navigator of one submission. -/
def demoInput : SubmitInput ℚ where
  descriptionInput := "  Lamp is out  "
  categorySelect := "Infrastructure"
  subcategorySelect := "Streetlight"
  prioritySelect := "low"
  draws := fun k => ⟨(7 * k + 3) % 16, Nat.mod_lt _ (by decide)⟩
  now1 := "2025-01-01T08:00:00.000Z"
  now2 := "2025-01-01T08:00:00.000Z"
  now3 := "2025-01-01T08:00:00.001Z"
  now4 := "2025-01-01T08:00:00.001Z"
  deviceInfo :=
    { userAgent := "Mozilla/5.0", screenWidth := 390, screenHeight := 844, pixelRatio := 3,
      platform := "iPhone", language := "en-PH" }

/-- A submission whose description, "Lamp", is too short. -/
def shortInput : SubmitInput ℚ :=
  { demoInput with descriptionInput := " Lamp " }

/-- The state in which the mission is active and a pin stands on the target. -/
def pinnedState : AppState ℚ :=
  run demoEnv (initialState (some "T-01") (some "Ana") [demoMission])
    [Event.selectMission "m1", Event.mapClick demoMission.target]

/-- The state after one submission. -/
def submittedState : AppState ℚ :=
  run demoEnv (initialState (some "T-01") (some "Ana") [demoMission])
    [Event.selectMission "m1", Event.mapClick demoMission.target, Event.submit demoInput]

/-- The state after one submission and its undo. -/
def undoneState : AppState ℚ :=
  run demoEnv (initialState (some "T-01") (some "Ana") [demoMission])
    [Event.selectMission "m1", Event.mapClick demoMission.target, Event.submit demoInput,
     Event.undo]

/-- A point about 1.1 km north of the target of `demoMission`. -/
def farPoint : LatLng ℚ := { lat := 169 / 25, lng := 31339 / 250 }

/-- The pin is placed on the target, dragged to `farPoint`, and the submission is made
(the Enter key) before the marker is released. -/
def dragSubmitEvents : List (Event ℚ) :=
  [Event.selectMission "m1", Event.mapClick demoMission.target, Event.drag farPoint,
   Event.submit demoInput]

/-- A point 5 m north of the target of `demoMission` by `demoDistance`. -/
def pointA : LatLng ℚ := { lat := 27 / 4 + 5 / 111320, lng := 31339 / 250 }

/-- A point 25 m north of the target of `demoMission` by `demoDistance`. -/
def pointX : LatLng ℚ := { lat := 27 / 4 + 25 / 111320, lng := 31339 / 250 }

/-- A point 10 m north of the target of `demoMission` by `demoDistance`. -/
def pointB : LatLng ℚ := { lat := 27 / 4 + 10 / 111320, lng := 31339 / 250 }

/-- The submission of entry A of the scenario: a description of 12 characters. -/
def inputA : SubmitInput ℚ :=
  { demoInput with descriptionInput := "Lamp is dark" }

/-- The submission of the second entry of the scenario, a minute later. -/
def inputB : SubmitInput ℚ :=
  { demoInput with
    descriptionInput := "Second lamp flickers"
    draws := fun k => ⟨(5 * k + 1) % 16, Nat.mod_lt _ (by decide)⟩
    now1 := "2025-01-01T08:01:00.000Z"
    now2 := "2025-01-01T08:01:00.000Z"
    now3 := "2025-01-01T08:01:00.000Z"
    now4 := "2025-01-01T08:01:00.000Z" }

/-- The state after the two submissions of the scenario, in which the mission is
completed. -/
def completedState : AppState ℚ :=
  run demoEnv (initialState (some "T-01") (some "Ana") [demoMission])
    [Event.selectMission "m1", Event.mapClick pointA, Event.submit inputA,
     Event.mapClick pointB, Event.submit inputB]

/-! ## Form validation: proofs -/

theorem jsLength_eq_zero_iff (s : String) : jsLength s = 0 ↔ s = "" := by
  cases s with
  | mk l =>
    cases l with
    | nil => simp [jsLength]
    | cons c cs =>
      have hc : 1 ≤ utf16Units c := by unfold utf16Units; split <;> omega
      constructor
      · intro h
        simp [jsLength] at h
        omega
      · intro h
        exact absurd (congrArg String.data h) (by simp)

theorem jsLength_eq_length (s : String) (h : ∀ c ∈ s.data, c.toNat < 65536) :
    jsLength s = s.length := by
  cases s with
  | mk l =>
    show (l.map utf16Units).sum = l.length
    induction l with
    | nil => rfl
    | cons c cs ih =>
      have hc : utf16Units c = 1 := by
        unfold utf16Units
        rw [if_pos (h c (by simp))]
      have hcs : ∀ d ∈ cs, d.toNat < 65536 := fun d hd => h d (by simp [hd])
      simp only [List.map_cons, List.sum_cons, List.length_cons, hc, ih hcs]
      omega

theorem validateForm_eq_nil_iff (d : String) :
    validateForm d = [] ↔ 10 ≤ jsLength (jsTrim d) := by
  have hz := jsLength_eq_zero_iff (jsTrim d)
  unfold validateForm
  by_cases h0 : jsTrim d = ""
  · have h1 : jsLength (jsTrim d) = 0 := hz.mpr h0
    simp only [h0, if_true]
    constructor
    · intro h; cases h
    · intro h
      rw [h0] at h1
      omega
  · by_cases h2 : jsLength (jsTrim d) < 10
    · simp only [h0, h2, if_true, if_false]
      constructor
      · intro h; cases h
      · intro h; omega
    · simp only [h0, h2, if_false]
      constructor
      · intro _; omega
      · intro _; trivial

/-- C8: `validateForm` returns no error exactly when the trimmed description has at least
10 characters (UTF-16 code units, what `length` counts); otherwise it returns exactly one
error on `descriptionInput`, "Description is required" when the trimmed description is
empty and "Description must be at least 10 characters" when it has 1 to 9 characters. -/
theorem validateForm_spec (d : String) :
    (validateForm d = [] ↔ 10 ≤ jsLength (jsTrim d)) ∧
    validateForm d =
      (if jsLength (jsTrim d) = 0 then
        [{ field := "descriptionInput", message := "Description is required" }]
       else if jsLength (jsTrim d) ≤ 9 then
        [{ field := "descriptionInput",
           message := "Description must be at least 10 characters" }]
       else []) := by
  have hz := jsLength_eq_zero_iff (jsTrim d)
  unfold validateForm
  by_cases h0 : jsTrim d = ""
  · have h1 : jsLength (jsTrim d) = 0 := hz.mpr h0
    have h4 : jsLength "" = 0 := by rw [← h0]; exact h1
    simp [h0, h4]
  · have h1 : jsLength (jsTrim d) ≠ 0 := fun h => h0 (hz.mp h)
    by_cases h2 : jsLength (jsTrim d) < 10
    · have h3 : jsLength (jsTrim d) ≤ 9 := by omega
      simp [h0, h1, h2, h3]
    · have h3 : ¬ jsLength (jsTrim d) ≤ 9 := by omega
      simp [h0, h1, h2, h3]
      omega

section Proofs

variable {K : Type}

/-! ## What the mission update of undo and redo leaves alone -/

theorem updateFoundMission_frame (f : Mission K → Mission K) (missionId : String)
    (s : AppState K) :
    (updateFoundMission f missionId s).collectedData = s.collectedData ∧
    (updateFoundMission f missionId s).undoStack = s.undoStack ∧
    (updateFoundMission f missionId s).redoStack = s.redoStack ∧
    (updateFoundMission f missionId s).activeMission = s.activeMission ∧
    (updateFoundMission f missionId s).tempMarker = s.tempMarker ∧
    (updateFoundMission f missionId s).tempLatLng = s.tempLatLng ∧
    (updateFoundMission f missionId s).submittedMarkers = s.submittedMarkers ∧
    (updateFoundMission f missionId s).nextMarker = s.nextMarker ∧
    (updateFoundMission f missionId s).userId = s.userId ∧
    (updateFoundMission f missionId s).userName = s.userName := by
  unfold updateFoundMission
  split
  · simp
  · dsimp only
    split
    · split
      · split <;> simp
      · simp
    · simp

theorem updateFoundMission_missions (f : Mission K → Mission K) (missionId : String)
    (s : AppState K) :
    (updateFoundMission f missionId s).missions =
      match findMissionIdx missionId s.missions with
      | none => s.missions
      | some j => modifyAt f j s.missions := by
  unfold updateFoundMission
  split
  · rfl
  · dsimp only
    split
    · split
      · split <;> rfl
      · rfl
    · rfl

/-! ## Failures leave the state alone -/

theorem undo_nil (s : AppState K) (h : s.undoStack = []) : undoLastSubmission s = s := by
  unfold undoLastSubmission
  rw [h]
  rfl

/-- C9: with an empty undo stack `undoLastSubmission` returns the state it was given, so
the ledger, every mission and both stacks are unchanged. -/
theorem undo_empty_unchanged (s : AppState K) (h : s.undoStack = []) :
    undoLastSubmission s = s := by
  unfold undoLastSubmission
  rw [h]
  rfl

/-- C7: `submitLocation` returns the state it was given, pending pin included, when the
trimmed description is empty or shorter than 10 characters, when no mission is active, or
when no pin is placed. -/
theorem submit_rejected_unchanged (inp : SubmitInput K) (s : AppState K)
    (h : jsLength (jsTrim inp.descriptionInput) < 10 ∨ s.activeMission = none ∨
      s.tempLatLng = none) :
    submitLocation inp s = s := by
  unfold submitLocation
  split
  · rename_i i tempLatLng hi ht
    split
    · rfl
    · have hv : validateForm inp.descriptionInput ≠ [] := by
        intro hnil
        have := (validateForm_eq_nil_iff inp.descriptionInput).mp hnil
        rcases h with h | h | h
        · omega
        · rw [hi] at h; cases h
        · rw [ht] at h; cases h
      have hlen : (validateForm inp.descriptionInput).length > 0 :=
        List.length_pos.mpr hv
      simp [hlen]
  · rfl

/-! ## Submission and redo -/

theorem redo_empty_unchanged (s : AppState K) (h : s.redoStack = []) :
    redoLastUndo s = s := by
  unfold redoLastUndo
  rw [h]
  rfl

theorem submit_accepted_fields (inp : SubmitInput K) (s : AppState K)
    (h : submitAccepted inp s = true) :
    ∃ (i : Nat) (tempLatLng : LatLng K) (mission : Mission K),
      s.activeMission = some i ∧ s.tempLatLng = some tempLatLng ∧
      s.missions[i]? = some mission ∧
      (submitLocation inp s).collectedData =
        s.collectedData ++ [newEntry inp s mission tempLatLng] ∧
      (submitLocation inp s).undoStack = s.undoStack ++
        [{ entry := newEntry inp s mission tempLatLng, marker := s.nextMarker,
           missionId := mission.id, entryIndex := (s.collectedData.length : Int) }] ∧
      (submitLocation inp s).redoStack = [] := by
  unfold submitAccepted at h
  unfold submitLocation
  split
  · rename_i i tempLatLng hi ht
    simp only [hi, ht, Bool.and_eq_true, beq_iff_eq] at h
    split
    · rename_i hm
      rw [hm] at h
      simp at h
    · rename_i mission hm
      have hlen : ¬ (validateForm inp.descriptionInput).length > 0 := by omega
      exact ⟨i, tempLatLng, mission, hi, ht, hm, by simp [hlen]⟩
  · rename_i hne
    split at h
    · rename_i i x hi ht
      exact absurd ht (hne i x hi)
    · cases h

theorem submit_not_accepted_unchanged (inp : SubmitInput K) (s : AppState K)
    (h : submitAccepted inp s = false) : submitLocation inp s = s := by
  unfold submitAccepted at h
  unfold submitLocation
  split
  · rename_i i tempLatLng hi ht
    simp only [hi, ht] at h
    split
    · rfl
    · rename_i mission hm
      rw [hm] at h
      simp only [Option.isSome_some, Bool.true_and, beq_eq_false_iff_ne, ne_eq] at h
      have hlen : (validateForm inp.descriptionInput).length > 0 := by omega
      simp [hlen]
  · rfl

theorem submit_accepted_redoStack (inp : SubmitInput K) (s : AppState K)
    (h : submitAccepted inp s = true) : (submitLocation inp s).redoStack = [] := by
  obtain ⟨_, _, _, _, _, _, _, _, hr⟩ := submit_accepted_fields inp s h
  exact hr

/-- C4: whatever the redo stack held, after a `submitLocation` that passes its guards the
redo stack is empty, and `redoLastUndo` run next returns the state unchanged. -/
theorem submit_then_redo (inp : SubmitInput K) (s : AppState K)
    (h : submitAccepted inp s = true) :
    (submitLocation inp s).redoStack = [] ∧
    redoLastUndo (submitLocation inp s) = submitLocation inp s :=
  ⟨submit_accepted_redoStack inp s h,
    redo_empty_unchanged _ (submit_accepted_redoStack inp s h)⟩

/-- C6: with a non-empty redo stack, `redoLastUndo` pops the top action `lastUndo`,
appends `lastUndo.entry` itself (so every field of it as stored) to the end of the ledger,
and pushes on the undo stack an action with that entry, the same `missionId` and
`entryIndex = collectedData.length - 1`. -/
theorem redo_restores_entry (s : AppState K) (hne : s.redoStack ≠ []) :
    ∃ lastUndo, s.redoStack.getLast? = some lastUndo ∧
      (redoLastUndo s).collectedData = s.collectedData ++ [lastUndo.entry] ∧
      (redoLastUndo s).redoStack = s.redoStack.dropLast ∧
      (redoLastUndo s).undoStack = s.undoStack ++
        [{ entry := lastUndo.entry, marker := s.nextMarker, missionId := lastUndo.missionId,
           entryIndex := ((redoLastUndo s).collectedData.length : Int) - 1 }] := by
  rcases List.eq_nil_or_concat s.redoStack with h0 | ⟨rs, lastUndo, h⟩
  · exact absurd h0 hne
  rw [List.concat_eq_append] at h
  have htop : s.redoStack.getLast? = some lastUndo := by rw [h, List.getLast?_concat]
  refine ⟨lastUndo, htop, ?_⟩
  unfold redoLastUndo
  rw [htop]
  simp [updateFoundMission_frame]

/-! ## Lists of missions -/

theorem getElem?_modifyAt {α : Type} (f : α → α) (i k : Nat) (l : List α) :
    (modifyAt f i l)[k]? = if k = i then (l[k]?).map f else l[k]? := by
  induction l generalizing i k with
  | nil => cases i <;> simp [modifyAt]
  | cons x xs ih =>
    cases i with
    | zero =>
      cases k with
      | zero => simp [modifyAt]
      | succ k => simp [modifyAt]
    | succ i =>
      cases k with
      | zero => simp [modifyAt]
      | succ k => simp [modifyAt, ih]

theorem length_modifyAt {α : Type} (f : α → α) (i : Nat) (l : List α) :
    (modifyAt f i l).length = l.length := by
  induction l generalizing i with
  | nil => cases i <;> simp [modifyAt]
  | cons x xs ih => cases i <;> simp [modifyAt, ih]

theorem mem_modifyAt {α : Type} (f : α → α) (i : Nat) (l : List α) (m : α)
    (h : m ∈ modifyAt f i l) : m ∈ l ∨ ∃ m0, m0 ∈ l ∧ m = f m0 := by
  induction l generalizing i with
  | nil => cases i <;> simp [modifyAt] at h
  | cons x xs ih =>
    cases i with
    | zero =>
      simp only [modifyAt, List.mem_cons] at h
      rcases h with h | h
      · exact Or.inr ⟨x, by simp, h⟩
      · exact Or.inl (by simp [h])
    | succ i =>
      simp only [modifyAt, List.mem_cons] at h
      rcases h with h | h
      · exact Or.inl (by simp [h])
      · rcases ih i h with h1 | ⟨m0, h1, h2⟩
        · exact Or.inl (by simp [h1])
        · exact Or.inr ⟨m0, by simp [h1], h2⟩

theorem modifyAt_eq_self {α : Type} (f : α → α) (i : Nat) (l : List α)
    (h : ∀ m, l[i]? = some m → f m = m) : modifyAt f i l = l := by
  induction l generalizing i with
  | nil => cases i <;> rfl
  | cons x xs ih =>
    cases i with
    | zero => simp [modifyAt, h x (by simp)]
    | succ i =>
      simp only [modifyAt]
      rw [ih i (fun m hm => h m (by simpa using hm))]

theorem modifyAt_modifyAt {α : Type} (f g : α → α) (i : Nat) (l : List α) :
    modifyAt g i (modifyAt f i l) = modifyAt (fun m => g (f m)) i l := by
  induction l generalizing i with
  | nil => cases i <;> rfl
  | cons x xs ih => cases i <;> simp [modifyAt, ih]

theorem map_id_modifyAt (f : Mission K → Mission K) (hf : ∀ m, (f m).id = m.id) (i : Nat)
    (l : List (Mission K)) : (modifyAt f i l).map (·.id) = l.map (·.id) := by
  induction l generalizing i with
  | nil => cases i <;> rfl
  | cons x xs ih => cases i <;> simp [modifyAt, ih, hf]

theorem findMissionIdx_modifyAt (f : Mission K → Mission K) (hf : ∀ m, (f m).id = m.id)
    (x : String) (i : Nat) (l : List (Mission K)) :
    findMissionIdx x (modifyAt f i l) = findMissionIdx x l := by
  induction l generalizing i with
  | nil => cases i <;> rfl
  | cons m ms ih => cases i <;> simp [modifyAt, findMissionIdx, ih, hf]

theorem findMissionIdx_some (x : String) (l : List (Mission K)) (j : Nat)
    (h : findMissionIdx x l = some j) : ∃ m, l[j]? = some m ∧ m.id = x := by
  induction l generalizing j with
  | nil => simp [findMissionIdx] at h
  | cons m ms ih =>
    unfold findMissionIdx at h
    split at h
    · rename_i hm
      cases h
      exact ⟨m, by simp, hm⟩
    · cases hf : findMissionIdx x ms with
      | none => simp [hf] at h
      | some k =>
        simp [hf] at h
        subst h
        simpa using ih k hf

theorem findMissionIdx_none (x : String) (l : List (Mission K))
    (h : findMissionIdx x l = none) :
    ∀ (k : Nat) (m : Mission K), l[k]? = some m → m.id ≠ x := by
  induction l with
  | nil => intro k m hk; simp at hk
  | cons m0 ms ih =>
    unfold findMissionIdx at h
    split at h
    · cases h
    · rename_i hne
      have hf : findMissionIdx x ms = none := by
        cases hf : findMissionIdx x ms with
        | none => rfl
        | some k => simp [hf] at h
      intro k m hk
      cases k with
      | zero =>
        simp at hk
        subst hk
        exact hne
      | succ k => exact ih hf k m (by simpa using hk)

theorem findMissionIdx_of_nodup (l : List (Mission K)) (hnd : (l.map (·.id)).Nodup)
    (j : Nat) (m : Mission K) (h : l[j]? = some m) : findMissionIdx m.id l = some j := by
  induction l generalizing j with
  | nil => simp at h
  | cons m0 ms ih =>
    simp only [List.map_cons, List.nodup_cons] at hnd
    cases j with
    | zero =>
      simp at h
      subst h
      simp [findMissionIdx]
    | succ j =>
      have hm : ms[j]? = some m := by simpa using h
      have hmem : m.id ∈ ms.map (·.id) :=
        List.mem_map.mpr ⟨m, List.mem_iff_getElem?.mpr ⟨j, hm⟩, rfl⟩
      have hne : m0.id ≠ m.id := fun he => hnd.1 (he ▸ hmem)
      simp [findMissionIdx, hne, ih hnd.2 j hm]

/-! ## One mission -/

theorem recordSubmission_id (m : Mission K) : (recordSubmission m).id = m.id := by
  unfold recordSubmission; dsimp only; split <;> rfl

theorem redoSubmission_id (m : Mission K) : (redoSubmission m).id = m.id := by
  unfold redoSubmission; dsimp only; split <;> rfl

theorem reverseSubmission_id (m : Mission K) : (reverseSubmission m).id = m.id := by
  unfold reverseSubmission; dsimp only; split <;> rfl

theorem recordSubmission_count (m : Mission K) :
    (recordSubmission m).entriesCollected = m.entriesCollected + 1 := by
  unfold recordSubmission; dsimp only; split <;> rfl

theorem redoSubmission_count (m : Mission K) :
    (redoSubmission m).entriesCollected = m.entriesCollected + 1 := by
  unfold redoSubmission; dsimp only; split <;> rfl

theorem reverseSubmission_count (m : Mission K) :
    (reverseSubmission m).entriesCollected = m.entriesCollected - 1 := by
  unfold reverseSubmission; dsimp only; split <;> rfl

theorem redoSubmission_eq (m : Mission K) : redoSubmission m = recordSubmission m := rfl

theorem sound_recordSubmission (m : Mission K) (h : CompletedSound m) :
    CompletedSound (recordSubmission m) := by
  unfold CompletedSound at *
  unfold recordSubmission
  dsimp only
  split
  · intro _; assumption
  · intro hs
    have := h hs
    dsimp only
    omega

theorem sound_reverseSubmission (m : Mission K) (_h : CompletedSound m) :
    CompletedSound (reverseSubmission m) := by
  unfold CompletedSound
  unfold reverseSubmission
  dsimp only
  split
  · intro hs; simp at hs
  · rename_i hc
    intro hs
    dsimp only at hs ⊢
    by_contra hlt
    exact hc ⟨hs, by omega⟩

theorem settled_recordSubmission (m : Mission K) (h : CompletedSound m) :
    StatusSettled (recordSubmission m) := by
  unfold CompletedSound at h
  unfold StatusSettled recordSubmission
  dsimp only
  split
  · rename_i hc
    simp
    exact hc
  · rename_i hc
    dsimp only
    constructor
    · intro hs
      have := h hs
      omega
    · intro hge
      exact absurd hge hc

theorem settled_reverseSubmission (m : Mission K) (h : StatusSettled m) :
    StatusSettled (reverseSubmission m) := by
  unfold StatusSettled at h
  unfold StatusSettled reverseSubmission
  dsimp only
  split
  · rename_i hc
    simp
    exact hc.2
  · rename_i hc
    dsimp only
    constructor
    · intro hs
      by_contra hlt
      exact hc ⟨hs, by omega⟩
    · intro hge
      exact h.mpr (by omega)

theorem redo_reverseSubmission (m : Mission K) (h : StatusSettled m) :
    redoSubmission (reverseSubmission m) = m := by
  unfold StatusSettled at h
  cases m with
  | mk id title instruction target boundary_radius required_count suggested_category zoom
      status entriesCollected =>
    dsimp only at h
    unfold redoSubmission reverseSubmission
    dsimp only
    by_cases hge : required_count ≤ entriesCollected
    · have hs : status = "completed" := h.mpr hge
      have h1 : ¬ (entriesCollected - 1 < required_count) ∨
          entriesCollected - 1 < required_count := by omega
      rcases h1 with h1 | h1
      · simp [hs, h1, hge]
      · simp [hs, h1, hge]
    · have hs : ¬ status = "completed" := fun hs => hge (h.mp hs)
      simp [hs, hge]

theorem tracks_recordSubmission (m : Mission K) (h : StatusTracks m) :
    StatusTracks (recordSubmission m) := by
  unfold StatusTracks at *
  unfold recordSubmission
  dsimp only
  split
  · rename_i hc
    exact ⟨h.1, Or.inl ⟨rfl, hc⟩⟩
  · rename_i hc
    dsimp only at hc ⊢
    refine ⟨h.1, ?_⟩
    rcases h.2 with ⟨_, h2⟩ | ⟨h1, _⟩
    · omega
    · exact Or.inr ⟨h1, by omega⟩

theorem tracks_reverseSubmission (m : Mission K) (h : StatusTracks m) :
    StatusTracks (reverseSubmission m) := by
  unfold StatusTracks at *
  unfold reverseSubmission
  dsimp only
  split
  · rename_i hc
    exact ⟨h.1, Or.inr ⟨rfl, hc.2⟩⟩
  · rename_i hc
    dsimp only at hc ⊢
    refine ⟨h.1, ?_⟩
    rcases h.2 with ⟨h1, _⟩ | ⟨h1, h2⟩
    · refine Or.inl ⟨h1, ?_⟩
      by_contra hlt
      exact hc ⟨h1, by omega⟩
    · exact Or.inr ⟨h1, by omega⟩

/-! ## The three history handlers, field by field -/

theorem splice1_last {α : Type} (ys : List α) (e : α) :
    splice1 (ys ++ [e]) (ys.length : Int) = ys := by
  unfold splice1
  have h1 : ¬ ((ys.length : Int) < 0) := by omega
  have h2 : min (ys.length : Int) ((ys ++ [e]).length : Int) = (ys.length : Int) := by
    simp
  simp only [h1, if_false, h2, Int.toNat_ofNat]
  rw [List.eraseIdx_append_of_length_le (Nat.le_refl _)]
  simp

theorem submit_cases (inp : SubmitInput K) (s : AppState K) :
    submitLocation inp s = s ∨
    ∃ (i : Nat) (tempLatLng : LatLng K) (mission : Mission K),
      s.activeMission = some i ∧ s.tempLatLng = some tempLatLng ∧
      s.missions[i]? = some mission ∧ validateForm inp.descriptionInput = [] ∧
      (submitLocation inp s).collectedData =
        s.collectedData ++ [newEntry inp s mission tempLatLng] ∧
      (submitLocation inp s).missions = modifyAt recordSubmission i s.missions ∧
      (submitLocation inp s).undoStack = s.undoStack ++
        [{ entry := newEntry inp s mission tempLatLng, marker := s.nextMarker,
           missionId := mission.id, entryIndex := (s.collectedData.length : Int) }] ∧
      (submitLocation inp s).redoStack = [] ∧
      (submitLocation inp s).activeMission = s.activeMission ∧
      (submitLocation inp s).tempLatLng = none := by
  unfold submitLocation
  split
  · rename_i i tempLatLng hi ht
    split
    · exact Or.inl rfl
    · rename_i mission hm
      split
      · exact Or.inl rfl
      · rename_i hv
        refine Or.inr ⟨i, tempLatLng, mission, hi, ht, hm, ?_, ?_⟩
        · exact List.eq_nil_of_length_eq_zero (by omega)
        · simp [hi]
  · exact Or.inl rfl

theorem undo_fields (s : AppState K) (us : List (Action K)) (a : Action K)
    (h : s.undoStack = us ++ [a]) :
    (undoLastSubmission s).undoStack = us ∧
    (undoLastSubmission s).collectedData = splice1 s.collectedData a.entryIndex ∧
    (undoLastSubmission s).redoStack = s.redoStack ++ [a] ∧
    (undoLastSubmission s).missions =
      (match findMissionIdx a.missionId s.missions with
       | none => s.missions
       | some j => modifyAt reverseSubmission j s.missions) ∧
    (undoLastSubmission s).activeMission = s.activeMission ∧
    (undoLastSubmission s).tempLatLng = s.tempLatLng := by
  unfold undoLastSubmission
  rw [h, List.getLast?_concat]
  simp [updateFoundMission_frame, updateFoundMission_missions]

theorem redo_fields (s : AppState K) (rs : List (Action K)) (a : Action K)
    (h : s.redoStack = rs ++ [a]) :
    (redoLastUndo s).redoStack = rs ∧
    (redoLastUndo s).collectedData = s.collectedData ++ [a.entry] ∧
    (redoLastUndo s).undoStack = s.undoStack ++
      [{ entry := a.entry, marker := s.nextMarker, missionId := a.missionId,
         entryIndex := (s.collectedData.length : Int) }] ∧
    (redoLastUndo s).missions =
      (match findMissionIdx a.missionId s.missions with
       | none => s.missions
       | some j => modifyAt redoSubmission j s.missions) ∧
    (redoLastUndo s).activeMission = s.activeMission ∧
    (redoLastUndo s).tempLatLng = s.tempLatLng := by
  unfold redoLastUndo
  rw [h, List.getLast?_concat]
  simp [updateFoundMission_frame, updateFoundMission_missions]

/-! ## The ledger mirrors the undo stack -/

theorem mirror_top (s : AppState K) (hM : StacksMirror s) (us : List (Action K))
    (a : Action K) (h : s.undoStack = us ++ [a]) :
    s.collectedData = us.map (·.entry) ++ [a.entry] ∧
    a.entryIndex = (us.length : Int) ∧
    us.map (·.entryIndex) = (List.range us.length).map Int.ofNat := by
  have he := hM.entries
  have hi := hM.indices
  rw [h] at he hi
  simp only [List.map_append, List.map_cons, List.map_nil, List.length_append,
    List.length_singleton, List.range_succ] at he hi
  have := List.append_inj' hi (by simp)
  refine ⟨he.symm, ?_, this.1⟩
  simpa using this.2

theorem mirror_length (s : AppState K) (hM : StacksMirror s) :
    s.collectedData.length = s.undoStack.length := by
  rw [← hM.entries, List.length_map]

theorem mirror_push (s s1 : AppState K) (hM : StacksMirror s) (e : Entry K) (mk : Marker)
    (x : String) (hx : x = e._mission_id)
    (hc : s1.collectedData = s.collectedData ++ [e])
    (hu : s1.undoStack = s.undoStack ++
      [{ entry := e, marker := mk, missionId := x,
         entryIndex := (s.collectedData.length : Int) }])
    (hr : ∀ a ∈ s1.redoStack, a ∈ s.redoStack) : StacksMirror s1 := by
  have hlen := mirror_length s hM
  constructor
  · rw [hu, hc, List.map_append, hM.entries]
    rfl
  · rw [hu, List.map_append, hM.indices, List.length_append, List.length_singleton,
      List.range_succ, List.map_append, hlen]
    rfl
  · intro a ha
    rw [hu, List.mem_append] at ha
    rcases ha with ha | ha
    · exact hM.undoIds a ha
    · simp only [List.mem_singleton] at ha
      subst ha
      exact hx
  · intro a ha
    exact hM.redoIds a (hr a ha)

theorem mirror_undo (s : AppState K) (hM : StacksMirror s) :
    StacksMirror (undoLastSubmission s) := by
  rcases List.eq_nil_or_concat s.undoStack with h | ⟨us, a, h⟩
  · rw [undo_nil s h]; exact hM
  · rw [List.concat_eq_append] at h
    obtain ⟨hu, hc, hr, _, _, _⟩ := undo_fields s us a h
    obtain ⟨hcd, hidx, hrest⟩ := mirror_top s hM us a h
    have hus : ∀ b ∈ us, b ∈ s.undoStack := fun b hb => by
      rw [h]; exact List.mem_append_left _ hb
    constructor
    · rw [hu, hc, hcd, hidx]
      have := splice1_last (us.map (·.entry)) a.entry
      rw [List.length_map] at this
      exact this.symm
    · rw [hu]; exact hrest
    · intro b hb
      rw [hu] at hb
      exact hM.undoIds b (hus b hb)
    · intro b hb
      rw [hr, List.mem_append] at hb
      rcases hb with hb | hb
      · exact hM.redoIds b hb
      · simp only [List.mem_singleton] at hb
        subst hb
        exact hM.undoIds b (by rw [h]; simp)

theorem mirror_redo (s : AppState K) (hM : StacksMirror s) :
    StacksMirror (redoLastUndo s) := by
  rcases List.eq_nil_or_concat s.redoStack with h | ⟨rs, a, h⟩
  · rw [redo_empty_unchanged s h]; exact hM
  · rw [List.concat_eq_append] at h
    obtain ⟨hr, hc, hu, _, _, _⟩ := redo_fields s rs a h
    refine mirror_push s _ hM a.entry s.nextMarker a.missionId ?_ hc hu ?_
    · exact hM.redoIds a (by rw [h]; simp)
    · intro b hb
      rw [hr] at hb
      rw [h]
      exact List.mem_append_left _ hb

theorem mirror_submit (inp : SubmitInput K) (s : AppState K) (hM : StacksMirror s) :
    StacksMirror (submitLocation inp s) := by
  rcases submit_cases inp s with h | ⟨i, tll, mission, _, _, _, _, hc, _, hu, hr, _, _⟩
  · rw [h]; exact hM
  · refine mirror_push s _ hM (newEntry inp s mission tll) s.nextMarker mission.id rfl hc hu ?_
    intro b hb
    rw [hr] at hb
    cases hb

/-! ## How handlers change the catalog -/

theorem missionsStep_refl (l : List (Mission K)) : MissionsStep l l :=
  ⟨fun m => m, 0, fun _ => rfl, fun _ h => h, fun _ h => h,
    (modifyAt_eq_self _ 0 l (fun _ _ => rfl)).symm⟩

theorem missionsStep_record (j : Nat) (l : List (Mission K)) :
    MissionsStep l (modifyAt recordSubmission j l) :=
  ⟨recordSubmission, j, recordSubmission_id, sound_recordSubmission,
    tracks_recordSubmission, rfl⟩

theorem missionsStep_reverse (j : Nat) (l : List (Mission K)) :
    MissionsStep l (modifyAt reverseSubmission j l) :=
  ⟨reverseSubmission, j, reverseSubmission_id, sound_reverseSubmission,
    tracks_reverseSubmission, rfl⟩

theorem missionsStep_submit (inp : SubmitInput K) (s : AppState K) :
    MissionsStep s.missions (submitLocation inp s).missions := by
  rcases submit_cases inp s with h | ⟨i, tll, mission, _, _, _, _, _, hm, _⟩
  · rw [h]; exact missionsStep_refl _
  · rw [hm]; exact missionsStep_record i _

theorem missionsStep_undo (s : AppState K) :
    MissionsStep s.missions (undoLastSubmission s).missions := by
  rcases List.eq_nil_or_concat s.undoStack with h | ⟨us, a, h⟩
  · rw [undo_nil s h]; exact missionsStep_refl _
  · rw [List.concat_eq_append] at h
    obtain ⟨_, _, _, hm, _, _⟩ := undo_fields s us a h
    rw [hm]
    split
    · exact missionsStep_refl _
    · exact missionsStep_reverse _ _

theorem missionsStep_redo (s : AppState K) :
    MissionsStep s.missions (redoLastUndo s).missions := by
  rcases List.eq_nil_or_concat s.redoStack with h | ⟨rs, a, h⟩
  · rw [redo_empty_unchanged s h]; exact missionsStep_refl _
  · rw [List.concat_eq_append] at h
    obtain ⟨_, _, _, hm, _, _⟩ := redo_fields s rs a h
    rw [hm]
    split
    · exact missionsStep_refl _
    · exact missionsStep_record _ _

theorem ids_of_missionsStep (l l1 : List (Mission K)) (h : MissionsStep l l1) :
    l1.map (·.id) = l.map (·.id) := by
  obtain ⟨f, j, hid, _, _, rfl⟩ := h
  exact map_id_modifyAt f hid j l

theorem find_of_missionsStep (l l1 : List (Mission K)) (h : MissionsStep l l1) (x : String) :
    findMissionIdx x l1 = findMissionIdx x l := by
  obtain ⟨f, j, hid, _, _, rfl⟩ := h
  exact findMissionIdx_modifyAt f hid x j l

theorem sound_of_missionsStep (l l1 : List (Mission K)) (h : MissionsStep l l1)
    (hs : ∀ m ∈ l, CompletedSound m) : ∀ m ∈ l1, CompletedSound m := by
  obtain ⟨f, j, _, hf, _, rfl⟩ := h
  intro m hm
  rcases mem_modifyAt f j l m hm with h1 | ⟨m0, h1, rfl⟩
  · exact hs m h1
  · exact hf m0 (hs m0 h1)

theorem tracks_of_missionsStep (l l1 : List (Mission K)) (h : MissionsStep l l1)
    (hs : ∀ m ∈ l, StatusTracks m) : ∀ m ∈ l1, StatusTracks m := by
  obtain ⟨f, j, _, _, hf, rfl⟩ := h
  intro m hm
  rcases mem_modifyAt f j l m hm with h1 | ⟨m0, h1, rfl⟩
  · exact hs m h1
  · exact hf m0 (hs m0 h1)

theorem active_of_missionsStep (s s1 : AppState K) (h : MissionsStep s.missions s1.missions)
    (ha : s1.activeMission = s.activeMission) (hA : ActiveIsFound s) : ActiveIsFound s1 := by
  intro i hi
  rw [ha] at hi
  obtain ⟨m, hm, hfind⟩ := hA i hi
  have hfind1 := find_of_missionsStep _ _ h
  obtain ⟨f, j, hid, _, _, hl⟩ := h
  rw [hl, getElem?_modifyAt]
  by_cases hij : i = j
  · subst hij
    refine ⟨f m, by rw [if_pos rfl, hm]; rfl, ?_⟩
    rw [← hl, hfind1, hid]
    exact hfind
  · refine ⟨m, by rw [if_neg hij, hm], ?_⟩
    rw [← hl, hfind1]
    exact hfind

/-! ## Settled statuses under the undo stack -/

theorem settled_push (s s1 : AppState K) (hT : UndoneSettled s)
    (hS : ∀ m ∈ s.missions, CompletedSound m) (act : Action K)
    (hu : s1.undoStack = s.undoStack ++ [act])
    (hm : s1.missions =
      (match findMissionIdx act.missionId s.missions with
       | none => s.missions
       | some j => modifyAt recordSubmission j s.missions)) : UndoneSettled s1 := by
  intro a ha j m hfind hget
  rw [hu, List.mem_append, List.mem_singleton] at ha
  cases hx : findMissionIdx act.missionId s.missions with
  | none =>
    rw [hx] at hm
    dsimp only at hm
    rw [hm] at hfind hget
    rcases ha with ha | ha
    · exact hT a ha j m hfind hget
    · subst ha
      rw [hx] at hfind
      cases hfind
  | some j0 =>
    rw [hx] at hm
    dsimp only at hm
    rw [hm, findMissionIdx_modifyAt _ recordSubmission_id] at hfind
    rw [hm, getElem?_modifyAt] at hget
    by_cases hj : j = j0
    · subst hj
      rw [if_pos rfl] at hget
      cases hg : s.missions[j]? with
      | none => rw [hg] at hget; cases hget
      | some m0 =>
        rw [hg] at hget
        simp only [Option.map_some', Option.some.injEq] at hget
        subst hget
        exact settled_recordSubmission m0 (hS m0 (List.mem_iff_getElem?.mpr ⟨j, hg⟩))
    · rw [if_neg hj] at hget
      rcases ha with ha | ha
      · exact hT a ha j m hfind hget
      · subst ha
        rw [hx] at hfind
        exact absurd (Option.some.inj hfind).symm hj

theorem settled_undo (s : AppState K) (hT : UndoneSettled s) :
    UndoneSettled (undoLastSubmission s) := by
  rcases List.eq_nil_or_concat s.undoStack with h | ⟨us, a0, h⟩
  · rw [undo_nil s h]; exact hT
  · rw [List.concat_eq_append] at h
    obtain ⟨hu, _, _, hm, _, _⟩ := undo_fields s us a0 h
    intro a ha j m hfind hget
    rw [hu] at ha
    have ha1 : a ∈ s.undoStack := by rw [h]; exact List.mem_append_left _ ha
    rw [find_of_missionsStep _ _ (missionsStep_undo s)] at hfind
    rw [hm] at hget
    cases hx : findMissionIdx a0.missionId s.missions with
    | none =>
      rw [hx] at hget
      exact hT a ha1 j m hfind hget
    | some j0 =>
      rw [hx] at hget
      dsimp only at hget
      rw [getElem?_modifyAt] at hget
      by_cases hj : j = j0
      · subst hj
        rw [if_pos rfl] at hget
        cases hg : s.missions[j]? with
        | none => rw [hg] at hget; cases hget
        | some m0 =>
          rw [hg] at hget
          simp only [Option.map_some', Option.some.injEq] at hget
          subst hget
          exact settled_reverseSubmission m0 (hT a ha1 j m0 hfind hg)
      · rw [if_neg hj] at hget
        exact hT a ha1 j m hfind hget

/-! ## Handlers that leave the history alone -/

theorem clearMapElements_frame (s : AppState K) :
    (clearMapElements s).missions = s.missions ∧
    (clearMapElements s).collectedData = s.collectedData ∧
    (clearMapElements s).undoStack = s.undoStack ∧
    (clearMapElements s).redoStack = s.redoStack ∧
    (clearMapElements s).activeMission = s.activeMission := by
  unfold clearMapElements
  cases s.tempMarker <;> simp

theorem selectMission_frame (missionId : String) (s : AppState K) :
    (selectMission missionId s).missions = s.missions ∧
    (selectMission missionId s).collectedData = s.collectedData ∧
    (selectMission missionId s).undoStack = s.undoStack ∧
    (selectMission missionId s).redoStack = s.redoStack := by
  unfold selectMission
  split
  · simp
  · split
    · simp
    · simp [clearMapElements_frame]

theorem backToMissionList_frame (s : AppState K) :
    (backToMissionList s).missions = s.missions ∧
    (backToMissionList s).collectedData = s.collectedData ∧
    (backToMissionList s).undoStack = s.undoStack ∧
    (backToMissionList s).redoStack = s.redoStack ∧
    (backToMissionList s).activeMission = none := by
  unfold backToMissionList
  simp [clearMapElements_frame]

theorem onDrag_frame (latlng : LatLng K) (s : AppState K) :
    (onDrag latlng s).missions = s.missions ∧
    (onDrag latlng s).collectedData = s.collectedData ∧
    (onDrag latlng s).undoStack = s.undoStack ∧
    (onDrag latlng s).redoStack = s.redoStack ∧
    (onDrag latlng s).activeMission = s.activeMission := by
  unfold onDrag
  split <;> simp

theorem handleMapClick_frame [LinearOrderedField K] (env : Env K) (latlng : LatLng K)
    (s : AppState K) :
    (handleMapClick env latlng s).missions = s.missions ∧
    (handleMapClick env latlng s).collectedData = s.collectedData ∧
    (handleMapClick env latlng s).undoStack = s.undoStack ∧
    (handleMapClick env latlng s).redoStack = s.redoStack ∧
    (handleMapClick env latlng s).activeMission = s.activeMission := by
  unfold handleMapClick
  split
  · simp
  · split
    · simp
    · dsimp only
      split <;> simp

theorem onDragEnd_frame [LinearOrderedField K] (env : Env K) (latlng : LatLng K)
    (s : AppState K) :
    (onDragEnd env latlng s).missions = s.missions ∧
    (onDragEnd env latlng s).collectedData = s.collectedData ∧
    (onDragEnd env latlng s).undoStack = s.undoStack ∧
    (onDragEnd env latlng s).redoStack = s.redoStack ∧
    (onDragEnd env latlng s).activeMission = s.activeMission := by
  unfold onDragEnd
  split
  · simp
  · dsimp only
    split <;> simp

theorem selectMission_active (missionId : String) (s : AppState K) (hA : ActiveIsFound s) :
    ActiveIsFound (selectMission missionId s) := by
  unfold selectMission
  split
  · exact hA
  · rename_i i hfind
    split
    · exact hA
    · rename_i mission hm
      intro k hk
      have hfr := clearMapElements_frame
        ({ s with activeMission := some i, currentEntries := mission.entriesCollected } :
          AppState K)
      rw [hfr.2.2.2.2] at hk
      rw [hfr.1]
      dsimp only at hk ⊢
      cases hk
      obtain ⟨m, hm1, hid⟩ := findMissionIdx_some missionId s.missions i hfind
      exact ⟨m, hm1, by rw [hid]; exact hfind⟩

/-! ## The history invariant along a run -/

theorem historyInv_of_frame (s s1 : AppState K) (hm : s1.missions = s.missions)
    (hc : s1.collectedData = s.collectedData) (hu : s1.undoStack = s.undoStack)
    (hr : s1.redoStack = s.redoStack) (hA : ActiveIsFound s1) (h : HistoryInv s) :
    HistoryInv s1 := by
  refine ⟨⟨?_, ?_, ?_, ?_⟩, hA, ?_, ?_⟩
  · rw [hu, hc]; exact h.mirror.entries
  · rw [hu]; exact h.mirror.indices
  · rw [hu]; exact h.mirror.undoIds
  · rw [hr]; exact h.mirror.redoIds
  · rw [hm]; exact h.sound
  · intro a ha j m hf hg
    rw [hu] at ha
    rw [hm] at hf hg
    exact h.settled a ha j m hf hg

theorem activeIsFound_congr (s s1 : AppState K) (hm : s1.missions = s.missions)
    (ha : s1.activeMission = s.activeMission) (hA : ActiveIsFound s) : ActiveIsFound s1 := by
  intro i hi
  rw [ha] at hi
  rw [hm]
  exact hA i hi

theorem historyInv_initial (userId userName : Option String) (catalog : List (Mission K)) :
    HistoryInv (initialState userId userName catalog) := by
  refine ⟨⟨rfl, rfl, ?_, ?_⟩, ?_, ?_, ?_⟩
  · intro a ha; cases ha
  · intro a ha; cases ha
  · intro i hi; cases hi
  · intro m hm
    simp only [initialState, loadMissions, List.mem_map] at hm
    obtain ⟨m0, _, rfl⟩ := hm
    intro hs
    have hne : ¬ ("pending" = "completed") := by decide
    exact absurd hs hne
  · intro a ha; cases ha

theorem historyInv_submit (inp : SubmitInput K) (s : AppState K) (h : HistoryInv s) :
    HistoryInv (submitLocation inp s) := by
  rcases submit_cases inp s with
    h0 | ⟨i, tll, mission, hi, _, hmi, _, _, hm, hu, _, ha, _⟩
  · rw [h0]; exact h
  · refine ⟨mirror_submit inp s h.mirror,
      active_of_missionsStep s _ (missionsStep_submit inp s) ha h.active,
      sound_of_missionsStep _ _ (missionsStep_submit inp s) h.sound, ?_⟩
    obtain ⟨m, hm1, hfind⟩ := h.active i hi
    rw [hmi] at hm1
    cases hm1
    refine settled_push s _ h.settled h.sound _ hu ?_
    show _ = (match findMissionIdx mission.id s.missions with
       | none => s.missions
       | some j => modifyAt recordSubmission j s.missions)
    rw [hfind]
    exact hm

theorem historyInv_undo (s : AppState K) (h : HistoryInv s) :
    HistoryInv (undoLastSubmission s) := by
  rcases List.eq_nil_or_concat s.undoStack with h0 | ⟨us, a, h0⟩
  · rw [undo_nil s h0]; exact h
  · rw [List.concat_eq_append] at h0
    obtain ⟨_, _, _, _, ha, _⟩ := undo_fields s us a h0
    exact ⟨mirror_undo s h.mirror,
      active_of_missionsStep s _ (missionsStep_undo s) ha h.active,
      sound_of_missionsStep _ _ (missionsStep_undo s) h.sound,
      settled_undo s h.settled⟩

theorem historyInv_redo (s : AppState K) (h : HistoryInv s) :
    HistoryInv (redoLastUndo s) := by
  rcases List.eq_nil_or_concat s.redoStack with h0 | ⟨rs, a, h0⟩
  · rw [redo_empty_unchanged s h0]; exact h
  · rw [List.concat_eq_append] at h0
    obtain ⟨_, _, hu, hm, ha, _⟩ := redo_fields s rs a h0
    exact ⟨mirror_redo s h.mirror,
      active_of_missionsStep s _ (missionsStep_redo s) ha h.active,
      sound_of_missionsStep _ _ (missionsStep_redo s) h.sound,
      settled_push s _ h.settled h.sound _ hu hm⟩

/-! ## Progress accounting -/

theorem countForMission_snoc (cd : List (Entry K)) (e : Entry K) (x : String) :
    countForMission (cd ++ [e]) x =
      countForMission cd x + (if e._mission_id = x then 1 else 0) := by
  unfold countForMission
  rw [List.countP_append]
  by_cases h : e._mission_id = x <;> simp [List.countP_cons, h]

theorem counted_update (l : List (Mission K)) (cd cd1 : List (Entry K)) (x : String)
    (f : Mission K → Mission K) (d : Int) (hid : ∀ m, (f m).id = m.id)
    (hc : ∀ m, (f m).entriesCollected = m.entriesCollected + d)
    (hnd : (l.map (·.id)).Nodup)
    (hx : (countForMission cd1 x : Int) = countForMission cd x + d)
    (hy : ∀ y, y ≠ x → countForMission cd1 y = countForMission cd y)
    (hC : ∀ (j : Nat) (m : Mission K), l[j]? = some m →
      m.entriesCollected = (countForMission cd m.id : Int)) :
    ∀ (k : Nat) (m : Mission K),
      (match findMissionIdx x l with
       | none => l
       | some j => modifyAt f j l)[k]? = some m →
      m.entriesCollected = (countForMission cd1 m.id : Int) := by
  intro k m hget
  cases hfind : findMissionIdx x l with
  | none =>
    rw [hfind] at hget
    dsimp only at hget
    have hne := findMissionIdx_none x l hfind k m hget
    rw [hy m.id hne]
    exact hC k m hget
  | some j =>
    rw [hfind] at hget
    dsimp only at hget
    rw [getElem?_modifyAt] at hget
    obtain ⟨mj, hmj, hmjid⟩ := findMissionIdx_some x l j hfind
    by_cases hk : k = j
    · subst hk
      rw [if_pos rfl, hmj] at hget
      simp only [Option.map_some', Option.some.injEq] at hget
      subst hget
      rw [hc, hid, hmjid, hx, hC k mj hmj, hmjid]
    · rw [if_neg hk] at hget
      have hne : m.id ≠ x := by
        intro he
        have h1 := findMissionIdx_of_nodup l hnd k m hget
        rw [he, hfind] at h1
        exact hk (Option.some.inj h1).symm
      rw [hy m.id hne]
      exact hC k m hget

theorem counted_push (s s1 : AppState K) (hnd : (s.missions.map (·.id)).Nodup)
    (hC : Counted s) (e : Entry K)
    (hc : s1.collectedData = s.collectedData ++ [e])
    (hm : s1.missions =
      (match findMissionIdx e._mission_id s.missions with
       | none => s.missions
       | some j => modifyAt recordSubmission j s.missions)) : Counted s1 := by
  unfold Counted
  rw [hc, hm]
  refine counted_update s.missions s.collectedData _ e._mission_id recordSubmission 1
    recordSubmission_id recordSubmission_count hnd ?_ ?_ hC
  · rw [countForMission_snoc]; simp
  · intro y hy
    rw [countForMission_snoc, if_neg (fun h => hy h.symm)]
    rfl

theorem counted_undo (s : AppState K) (hM : StacksMirror s)
    (hnd : (s.missions.map (·.id)).Nodup) (hC : Counted s) :
    Counted (undoLastSubmission s) := by
  rcases List.eq_nil_or_concat s.undoStack with h | ⟨us, a, h⟩
  · rw [undo_nil s h]; exact hC
  · rw [List.concat_eq_append] at h
    obtain ⟨_, hc, _, hm, _, _⟩ := undo_fields s us a h
    obtain ⟨hcd, hidx, _⟩ := mirror_top s hM us a h
    have hid : a.missionId = a.entry._mission_id := hM.undoIds a (by rw [h]; simp)
    have hc1 : (undoLastSubmission s).collectedData = us.map (·.entry) := by
      rw [hc, hcd, hidx]
      have := splice1_last (us.map (·.entry)) a.entry
      rw [List.length_map] at this
      exact this
    unfold Counted at hC ⊢
    rw [hcd] at hC
    rw [hc1, hm]
    refine counted_update s.missions _ _ a.missionId reverseSubmission (-1)
      reverseSubmission_id ?_ hnd ?_ ?_ hC
    · intro m; rw [reverseSubmission_count]; rfl
    · rw [countForMission_snoc, if_pos hid.symm]
      push_cast
      ring
    · intro y hy
      rw [countForMission_snoc, if_neg (fun h => hy (hid.trans h).symm)]
      rfl

section Runs

variable [LinearOrderedField K]

/-- The fields the three history handlers work on are changed by no other handler. -/
theorem step_frame (env : Env K) (s : AppState K) (ev : Event K)
    (hs : ∀ inp, ev ≠ Event.submit inp) (hu : ev ≠ Event.undo) (hr : ev ≠ Event.redo) :
    (step env s ev).missions = s.missions ∧
    (step env s ev).collectedData = s.collectedData ∧
    (step env s ev).undoStack = s.undoStack ∧
    (step env s ev).redoStack = s.redoStack := by
  cases ev with
  | selectMission missionId => exact selectMission_frame missionId s
  | backToMissionList =>
    have := backToMissionList_frame s
    exact ⟨this.1, this.2.1, this.2.2.1, this.2.2.2.1⟩
  | mapClick latlng =>
    have := handleMapClick_frame env latlng s
    exact ⟨this.1, this.2.1, this.2.2.1, this.2.2.2.1⟩
  | drag latlng =>
    have := onDrag_frame latlng s
    exact ⟨this.1, this.2.1, this.2.2.1, this.2.2.2.1⟩
  | dragend latlng =>
    have := onDragEnd_frame env latlng s
    exact ⟨this.1, this.2.1, this.2.2.1, this.2.2.2.1⟩
  | submit inp => exact absurd rfl (hs inp)
  | undo => exact absurd rfl hu
  | redo => exact absurd rfl hr

theorem historyInv_step (env : Env K) (s : AppState K) (ev : Event K) (h : HistoryInv s) :
    HistoryInv (step env s ev) := by
  cases ev with
  | selectMission missionId =>
    have hf := selectMission_frame missionId s
    exact historyInv_of_frame s _ hf.1 hf.2.1 hf.2.2.1 hf.2.2.2
      (selectMission_active missionId s h.active) h
  | backToMissionList =>
    have hf := backToMissionList_frame s
    refine historyInv_of_frame s _ hf.1 hf.2.1 hf.2.2.1 hf.2.2.2.1 ?_ h
    intro i hi
    have := hf.2.2.2.2
    simp only [step] at hi
    rw [this] at hi
    cases hi
  | mapClick latlng =>
    have hf := handleMapClick_frame env latlng s
    exact historyInv_of_frame s _ hf.1 hf.2.1 hf.2.2.1 hf.2.2.2.1
      (activeIsFound_congr s _ hf.1 hf.2.2.2.2 h.active) h
  | drag latlng =>
    have hf := onDrag_frame latlng s
    exact historyInv_of_frame s _ hf.1 hf.2.1 hf.2.2.1 hf.2.2.2.1
      (activeIsFound_congr s _ hf.1 hf.2.2.2.2 h.active) h
  | dragend latlng =>
    have hf := onDragEnd_frame env latlng s
    exact historyInv_of_frame s _ hf.1 hf.2.1 hf.2.2.1 hf.2.2.2.1
      (activeIsFound_congr s _ hf.1 hf.2.2.2.2 h.active) h
  | submit inp => exact historyInv_submit inp s h
  | undo => exact historyInv_undo s h
  | redo => exact historyInv_redo s h

theorem run_invariant (env : Env K) (P : AppState K → Prop)
    (hstep : ∀ s ev, P s → P (step env s ev)) (events : List (Event K)) :
    ∀ s, P s → P (run env s events) := by
  induction events with
  | nil => intro s hs; exact hs
  | cons ev evs ih =>
    intro s hs
    exact ih (step env s ev) (hstep s ev hs)

theorem historyInv_reachable (env : Env K) (userId userName : Option String)
    (catalog : List (Mission K)) (s : AppState K)
    (h : Reachable env userId userName catalog s) : HistoryInv s := by
  obtain ⟨events, rfl⟩ := h
  exact run_invariant env HistoryInv (historyInv_step env) events _
    (historyInv_initial userId userName catalog)

theorem missionsStep_step (env : Env K) (s : AppState K) (ev : Event K) :
    MissionsStep s.missions (step env s ev).missions := by
  cases ev with
  | submit inp => exact missionsStep_submit inp s
  | undo => exact missionsStep_undo s
  | redo => exact missionsStep_redo s
  | selectMission missionId =>
    rw [(step_frame env s _ (fun _ => by simp) (by simp) (by simp)).1]
    exact missionsStep_refl _
  | backToMissionList =>
    rw [(step_frame env s _ (fun _ => by simp) (by simp) (by simp)).1]
    exact missionsStep_refl _
  | mapClick latlng =>
    rw [(step_frame env s _ (fun _ => by simp) (by simp) (by simp)).1]
    exact missionsStep_refl _
  | drag latlng =>
    rw [(step_frame env s _ (fun _ => by simp) (by simp) (by simp)).1]
    exact missionsStep_refl _
  | dragend latlng =>
    rw [(step_frame env s _ (fun _ => by simp) (by simp) (by simp)).1]
    exact missionsStep_refl _

theorem counted_step (env : Env K) (s : AppState K) (ev : Event K)
    (h : HistoryInv s ∧ (s.missions.map (·.id)).Nodup ∧ Counted s) :
    HistoryInv (step env s ev) ∧ ((step env s ev).missions.map (·.id)).Nodup ∧
      Counted (step env s ev) := by
  obtain ⟨hH, hnd, hC⟩ := h
  refine ⟨historyInv_step env s ev hH, ?_, ?_⟩
  · rw [ids_of_missionsStep _ _ (missionsStep_step env s ev)]
    exact hnd
  · cases ev with
    | submit inp =>
      rcases submit_cases inp s with
        h0 | ⟨i, tll, mission, hi, _, hmi, _, hc, hm, _, _, _, _⟩
      · simp only [step]; rw [h0]; exact hC
      · refine counted_push s _ hnd hC _ hc ?_
        show _ = (match findMissionIdx mission.id s.missions with
          | none => s.missions
          | some j => modifyAt recordSubmission j s.missions)
        rw [findMissionIdx_of_nodup s.missions hnd i mission hmi]
        exact hm
    | undo => exact counted_undo s hH.mirror hnd hC
    | redo =>
      rcases List.eq_nil_or_concat s.redoStack with h0 | ⟨rs, a, h0⟩
      · simp only [step]; rw [redo_empty_unchanged s h0]; exact hC
      · rw [List.concat_eq_append] at h0
        obtain ⟨_, hc, _, hm, _, _⟩ := redo_fields s rs a h0
        have hid : a.missionId = a.entry._mission_id :=
          hH.mirror.redoIds a (by rw [h0]; simp)
        refine counted_push s _ hnd hC a.entry hc ?_
        rw [← hid]
        exact hm
    | selectMission missionId =>
      have hf := step_frame env s (Event.selectMission missionId) (fun _ => by simp)
        (by simp) (by simp)
      unfold Counted
      rw [hf.1, hf.2.1]
      exact hC
    | backToMissionList =>
      have hf := step_frame env s Event.backToMissionList (fun _ => by simp)
        (by simp) (by simp)
      unfold Counted
      rw [hf.1, hf.2.1]
      exact hC
    | mapClick latlng =>
      have hf := step_frame env s (Event.mapClick latlng) (fun _ => by simp)
        (by simp) (by simp)
      unfold Counted
      rw [hf.1, hf.2.1]
      exact hC
    | drag latlng =>
      have hf := step_frame env s (Event.drag latlng) (fun _ => by simp)
        (by simp) (by simp)
      unfold Counted
      rw [hf.1, hf.2.1]
      exact hC
    | dragend latlng =>
      have hf := step_frame env s (Event.dragend latlng) (fun _ => by simp)
        (by simp) (by simp)
      unfold Counted
      rw [hf.1, hf.2.1]
      exact hC

/-! ## The claims about reachable states -/

/-- C1: for a catalog with pairwise distinct mission ids, in every state reached from the
freshly loaded catalog by any sequence of events (mission selection, return to the list,
map clicks, drags, submissions, undos, redos), every mission has
`entriesCollected` equal to the number of ledger entries whose `_mission_id` is its id. -/
theorem progress_counts_ledger (env : Env K) (userId userName : Option String)
    (catalog : List (Mission K)) (hnd : (catalog.map (·.id)).Nodup) (s : AppState K)
    (h : Reachable env userId userName catalog s) :
    ∀ m ∈ s.missions, m.entriesCollected = (countForMission s.collectedData m.id : Int) := by
  obtain ⟨events, rfl⟩ := h
  have h0 : HistoryInv (initialState userId userName catalog) ∧
      ((initialState userId userName catalog).missions.map (·.id)).Nodup ∧
      Counted (initialState userId userName catalog) := by
    refine ⟨historyInv_initial userId userName catalog, ?_, ?_⟩
    · simp only [initialState, loadMissions, List.map_map]
      exact hnd
    · intro j m hm
      have hmem : m ∈ (initialState userId userName catalog).missions :=
        List.mem_iff_getElem?.mpr ⟨j, hm⟩
      simp only [initialState, loadMissions, List.mem_map] at hmem
      obtain ⟨m0, _, rfl⟩ := hmem
      simp [initialState, countForMission]
  have := run_invariant env
    (fun s => HistoryInv s ∧ (s.missions.map (·.id)).Nodup ∧ Counted s)
    (counted_step env) events _ h0
  intro m hm
  obtain ⟨j, hj⟩ := List.mem_iff_getElem?.mp hm
  exact this.2.2 j m hj

/-- C2: for a catalog in which every `required_count` is positive, in every state reached
from the freshly loaded catalog every mission has status `completed` exactly when
`entriesCollected >= required_count`, and status `pending` exactly when it is below.
Distinct mission ids are not needed for this. -/
theorem status_tracks_progress (env : Env K) (userId userName : Option String)
    (catalog : List (Mission K)) (hpos : ∀ m ∈ catalog, 0 < m.required_count)
    (s : AppState K) (h : Reachable env userId userName catalog s) :
    ∀ m ∈ s.missions,
      (m.status = "completed" ↔ m.required_count ≤ m.entriesCollected) ∧
      (m.status = "pending" ↔ m.entriesCollected < m.required_count) := by
  obtain ⟨events, rfl⟩ := h
  have h0 : ∀ m ∈ (initialState userId userName catalog).missions, StatusTracks m := by
    intro m hm
    simp only [initialState, loadMissions, List.mem_map] at hm
    obtain ⟨m0, hm0, rfl⟩ := hm
    exact ⟨hpos m0 hm0, Or.inr ⟨rfl, hpos m0 hm0⟩⟩
  have := run_invariant env (fun s => ∀ m ∈ s.missions, StatusTracks m)
    (fun s ev hs => tracks_of_missionsStep _ _ (missionsStep_step env s ev) hs) events _ h0
  intro m hm
  have hne : ¬ ("pending" = "completed") := by decide
  rcases (this m hm).2 with ⟨h1, h2⟩ | ⟨h1, h2⟩
  · refine ⟨⟨fun _ => h2, fun _ => h1⟩, ⟨fun hp => ?_, fun hlt => ?_⟩⟩
    · rw [h1] at hp; exact absurd hp.symm hne
    · omega
  · refine ⟨⟨fun hc => ?_, fun hge => ?_⟩, ⟨fun _ => h2, fun _ => h1⟩⟩
    · rw [h1] at hc; exact absurd hc hne
    · omega

/-- C5: in a reachable state with a non-empty undo stack, `undoLastSubmission` pops the
top action `lastAction`, removes from the ledger exactly `lastAction.entry`, which is the
last element of the ledger (the entries before it stay, in order), and makes `lastAction`
the top of the redo stack: the last submitted entry is the first undone. -/
theorem undo_removes_last (env : Env K) (userId userName : Option String)
    (catalog : List (Mission K)) (s : AppState K)
    (h : Reachable env userId userName catalog s) (hne : s.undoStack ≠ []) :
    ∃ lastAction, s.undoStack.getLast? = some lastAction ∧
      s.collectedData = (undoLastSubmission s).collectedData ++ [lastAction.entry] ∧
      (undoLastSubmission s).undoStack = s.undoStack.dropLast ∧
      (undoLastSubmission s).redoStack = s.redoStack ++ [lastAction] := by
  have hH := historyInv_reachable env userId userName catalog s h
  rcases List.eq_nil_or_concat s.undoStack with h0 | ⟨us, lastAction, hus⟩
  · exact absurd h0 hne
  rw [List.concat_eq_append] at hus
  obtain ⟨hu, hc, hr, _, _, _⟩ := undo_fields s us lastAction hus
  obtain ⟨hcd, hidx, _⟩ := mirror_top s hH.mirror us lastAction hus
  refine ⟨lastAction, by rw [hus, List.getLast?_concat], ?_, ?_, hr⟩
  · rw [hc, hidx]
    have := splice1_last (us.map (·.entry)) lastAction.entry
    rw [List.length_map] at this
    rw [hcd, this]
  · rw [hu, hus, List.dropLast_concat]

/-- C3: in a reachable state with a non-empty undo stack, `undoLastSubmission` followed by
`redoLastUndo` gives back the same ledger (the same entries in the same order), the same
missions (so the same `entriesCollected` and `status` for each), undo and redo stacks of
the same lengths (the redo stack is the same), and a top undo action with the same
`entry`, `missionId` and `entryIndex`. -/
theorem undo_redo_roundtrip (env : Env K) (userId userName : Option String)
    (catalog : List (Mission K)) (s : AppState K)
    (h : Reachable env userId userName catalog s) (hne : s.undoStack ≠ []) :
    (redoLastUndo (undoLastSubmission s)).collectedData = s.collectedData ∧
    (redoLastUndo (undoLastSubmission s)).missions = s.missions ∧
    (redoLastUndo (undoLastSubmission s)).undoStack.length = s.undoStack.length ∧
    (redoLastUndo (undoLastSubmission s)).redoStack = s.redoStack ∧
    ∃ before after,
      s.undoStack.getLast? = some before ∧
      (redoLastUndo (undoLastSubmission s)).undoStack.getLast? = some after ∧
      after.entry = before.entry ∧ after.missionId = before.missionId ∧
      after.entryIndex = before.entryIndex := by
  have hH := historyInv_reachable env userId userName catalog s h
  rcases List.eq_nil_or_concat s.undoStack with h0 | ⟨us, a, hus⟩
  · exact absurd h0 hne
  rw [List.concat_eq_append] at hus
  obtain ⟨hu, hc, hr, hm, _, _⟩ := undo_fields s us a hus
  obtain ⟨hcd, hidx, _⟩ := mirror_top s hH.mirror us a hus
  have hc1 : (undoLastSubmission s).collectedData = us.map (·.entry) := by
    rw [hc, hcd, hidx]
    have := splice1_last (us.map (·.entry)) a.entry
    rw [List.length_map] at this
    exact this
  obtain ⟨hr2, hc2, hu2, hm2, _, _⟩ := redo_fields (undoLastSubmission s) s.redoStack a hr
  refine ⟨?_, ?_, ?_, hr2, a,
    { entry := a.entry, marker := (undoLastSubmission s).nextMarker, missionId := a.missionId,
      entryIndex := ((undoLastSubmission s).collectedData.length : Int) },
    ?_, ?_, rfl, rfl, ?_⟩
  · rw [hc2, hc1, hcd]
  · rw [hm2, find_of_missionsStep _ _ (missionsStep_undo s), hm]
    cases hfind : findMissionIdx a.missionId s.missions with
    | none => rfl
    | some j =>
      dsimp only
      rw [modifyAt_modifyAt]
      apply modifyAt_eq_self
      intro m hget
      exact redo_reverseSubmission m
        (hH.settled a (by rw [hus]; simp) j m hfind hget)
  · rw [hu2, hu, hus]
    simp
  · rw [hus, List.getLast?_concat]
  · rw [hu2, List.getLast?_concat]
  · show ((undoLastSubmission s).collectedData.length : Int) = a.entryIndex
    rw [hc1, hidx, List.length_map]

end Runs

/-! ## The concrete session -/

theorem pinnedState_fields :
    pinnedState.activeMission = some 0 ∧
    pinnedState.tempLatLng = some demoMission.target ∧
    pinnedState.missions = loadMissions [demoMission] ∧
    pinnedState.undoStack = [] := by
  norm_num [pinnedState, run, step, initialState, loadMissions, selectMission,
    findMissionIdx, demoMission, clearMapElements, handleMapClick, boundaryRadiusOf,
    actionZoneRadius, demoEnv, demoDistance]

theorem pinnedState_accepts : submitAccepted demoInput pinnedState = true := by
  unfold submitAccepted
  rw [pinnedState_fields.1, pinnedState_fields.2.1, pinnedState_fields.2.2.1]
  decide

theorem submittedState_eq : submittedState = submitLocation demoInput pinnedState := rfl

theorem undoneState_eq : undoneState = undoLastSubmission submittedState := rfl

theorem submittedState_undoStack : submittedState.undoStack ≠ [] := by
  rw [submittedState_eq]
  obtain ⟨_, _, _, _, _, _, _, hu, _⟩ :=
    submit_accepted_fields demoInput pinnedState pinnedState_accepts
  rw [hu]
  simp

theorem undoneState_redoStack : undoneState.redoStack ≠ [] := by
  rw [undoneState_eq]
  rcases List.eq_nil_or_concat submittedState.undoStack with h | ⟨us, a, h⟩
  · exact absurd h submittedState_undoStack
  · rw [List.concat_eq_append] at h
    rw [(undo_fields submittedState us a h).2.2.1]
    simp

theorem demo_reachable (events : List (Event ℚ)) :
    Reachable demoEnv (some "T-01") (some "Ana") [demoMission]
      (run demoEnv (initialState (some "T-01") (some "Ana") [demoMission]) events) :=
  ⟨events, rfl⟩

/-- Witness of C1 (`progress_counts_ledger`) after one submission. -/
theorem progress_counts_ledger_witness :
    (([demoMission].map (·.id)).Nodup ∧
      Reachable demoEnv (some "T-01") (some "Ana") [demoMission] submittedState) ∧
    ∀ m ∈ submittedState.missions,
      m.entriesCollected = (countForMission submittedState.collectedData m.id : Int) :=
  ⟨⟨by decide, demo_reachable _⟩,
    progress_counts_ledger demoEnv (some "T-01") (some "Ana") [demoMission] (by decide)
      submittedState (demo_reachable _)⟩

/-- Witness of C2 (`status_tracks_progress`) after one submission. -/
theorem status_tracks_progress_witness :
    ((∀ m ∈ [demoMission], 0 < m.required_count) ∧
      Reachable demoEnv (some "T-01") (some "Ana") [demoMission] submittedState) ∧
    ∀ m ∈ submittedState.missions,
      (m.status = "completed" ↔ m.required_count ≤ m.entriesCollected) ∧
      (m.status = "pending" ↔ m.entriesCollected < m.required_count) :=
  ⟨⟨by simp [demoMission], demo_reachable _⟩,
    status_tracks_progress demoEnv (some "T-01") (some "Ana") [demoMission]
      (by simp [demoMission]) submittedState (demo_reachable _)⟩

/-- Witness of C3 (`undo_redo_roundtrip`) after one submission. -/
theorem undo_redo_roundtrip_witness :
    (Reachable demoEnv (some "T-01") (some "Ana") [demoMission] submittedState ∧
      submittedState.undoStack ≠ []) ∧
    (redoLastUndo (undoLastSubmission submittedState)).collectedData =
      submittedState.collectedData ∧
    (redoLastUndo (undoLastSubmission submittedState)).missions = submittedState.missions ∧
    (redoLastUndo (undoLastSubmission submittedState)).undoStack.length =
      submittedState.undoStack.length ∧
    (redoLastUndo (undoLastSubmission submittedState)).redoStack = submittedState.redoStack ∧
    ∃ before after,
      submittedState.undoStack.getLast? = some before ∧
      (redoLastUndo (undoLastSubmission submittedState)).undoStack.getLast? = some after ∧
      after.entry = before.entry ∧ after.missionId = before.missionId ∧
      after.entryIndex = before.entryIndex :=
  ⟨⟨demo_reachable _, submittedState_undoStack⟩,
    undo_redo_roundtrip demoEnv (some "T-01") (some "Ana") [demoMission] submittedState
      (demo_reachable _) submittedState_undoStack⟩

/-- Witness of C4 (`submit_then_redo`): the submission made with a pin on the target. -/
theorem submit_then_redo_witness :
    submitAccepted demoInput pinnedState = true ∧
    (submitLocation demoInput pinnedState).redoStack = [] ∧
    redoLastUndo (submitLocation demoInput pinnedState) =
      submitLocation demoInput pinnedState :=
  ⟨pinnedState_accepts, submit_then_redo demoInput pinnedState pinnedState_accepts⟩

/-- Witness of C5 (`undo_removes_last`) after one submission. -/
theorem undo_removes_last_witness :
    (Reachable demoEnv (some "T-01") (some "Ana") [demoMission] submittedState ∧
      submittedState.undoStack ≠ []) ∧
    ∃ lastAction, submittedState.undoStack.getLast? = some lastAction ∧
      submittedState.collectedData =
        (undoLastSubmission submittedState).collectedData ++ [lastAction.entry] ∧
      (undoLastSubmission submittedState).undoStack = submittedState.undoStack.dropLast ∧
      (undoLastSubmission submittedState).redoStack =
        submittedState.redoStack ++ [lastAction] :=
  ⟨⟨demo_reachable _, submittedState_undoStack⟩,
    undo_removes_last demoEnv (some "T-01") (some "Ana") [demoMission] submittedState
      (demo_reachable _) submittedState_undoStack⟩

/-- Witness of C6 (`redo_restores_entry`) after one submission and its undo. -/
theorem redo_restores_entry_witness :
    undoneState.redoStack ≠ [] ∧
    ∃ lastUndo, undoneState.redoStack.getLast? = some lastUndo ∧
      (redoLastUndo undoneState).collectedData = undoneState.collectedData ++ [lastUndo.entry] ∧
      (redoLastUndo undoneState).redoStack = undoneState.redoStack.dropLast ∧
      (redoLastUndo undoneState).undoStack = undoneState.undoStack ++
        [{ entry := lastUndo.entry, marker := undoneState.nextMarker,
           missionId := lastUndo.missionId,
           entryIndex := ((redoLastUndo undoneState).collectedData.length : Int) - 1 }] :=
  ⟨undoneState_redoStack, redo_restores_entry undoneState undoneState_redoStack⟩

/-- Witness of C7 (`submit_rejected_unchanged`): the description "Lamp" with a pin placed. -/
theorem submit_rejected_unchanged_witness :
    (jsLength (jsTrim shortInput.descriptionInput) < 10 ∨ pinnedState.activeMission = none ∨
      pinnedState.tempLatLng = none) ∧
    submitLocation shortInput pinnedState = pinnedState :=
  ⟨Or.inl (by decide), submit_rejected_unchanged shortInput pinnedState (Or.inl (by decide))⟩

/-- Witness of C9 (`undo_empty_unchanged`): undo before any submission. -/
theorem undo_empty_unchanged_witness :
    pinnedState.undoStack = [] ∧ undoLastSubmission pinnedState = pinnedState :=
  ⟨pinnedState_fields.2.2.2, undo_empty_unchanged pinnedState pinnedState_fields.2.2.2⟩

/-! ## The geofence -/

section Geofence

variable [LinearOrderedField K]

/-- A pin accepted on the target, dragged anywhere and submitted before the marker is
released is stored at the dragged position: the `drag` handler writes `tempLatLng`
unchecked and `submitLocation` reads it. -/
theorem drag_then_submit_ledger (env : Env K) (userId userName : Option String)
    (m : Mission K) (far : LatLng K) (inp : SubmitInput K)
    (hin : ¬ env.distanceTo m.target m.target > boundaryRadiusOf m)
    (hv : validateForm inp.descriptionInput = []) :
    (run env (initialState userId userName [m])
      [Event.selectMission m.id, Event.mapClick m.target, Event.drag far,
       Event.submit inp]).collectedData.map (fun e => (e._mission_id, e.latitude, e.longitude))
      = [(m.id, far.lat, far.lng)] := by
  have hr : boundaryRadiusOf ({ m with status := "pending", entriesCollected := 0 } : Mission K)
      = boundaryRadiusOf m := rfl
  simp [run, step, initialState, loadMissions, selectMission, findMissionIdx,
    clearMapElements, handleMapClick, hr, hin, onDrag, submitLocation, hv, newEntry]

end Geofence

/-- C10 (fails on the code): in the run `dragSubmitEvents` of the concrete session the
ledger holds one entry, of mission `m1`, at `farPoint`, and the distance from the target of
`m1` to that entry exceeds the boundary radius of 20 m. -/
theorem geofence_escape_by_drag :
    (run demoEnv (initialState (some "T-01") (some "Ana") [demoMission])
      dragSubmitEvents).collectedData.map (fun e => (e._mission_id, e.latitude, e.longitude))
      = [(demoMission.id, farPoint.lat, farPoint.lng)] ∧
    boundaryRadiusOf demoMission = 20 ∧
    demoEnv.distanceTo demoMission.target farPoint = 5566 / 5 ∧
    boundaryRadiusOf demoMission < demoEnv.distanceTo demoMission.target farPoint := by
  refine ⟨?_, ?_, ?_, ?_⟩
  · exact drag_then_submit_ledger demoEnv (some "T-01") (some "Ana") demoMission farPoint
      demoInput (by norm_num [demoEnv, demoDistance, demoMission, boundaryRadiusOf])
      (by decide)
  · norm_num [boundaryRadiusOf, demoMission]
  · norm_num [demoEnv, demoDistance, demoMission, farPoint, abs_of_neg]
  · norm_num [boundaryRadiusOf, demoEnv, demoDistance, demoMission, farPoint, abs_of_neg]

/-! ## Click admission and the boundary radius -/

section Admission

variable [LinearOrderedField K]

theorem handleMapClick_accept (env : Env K) (s : AppState K) (i : Nat) (mission : Mission K)
    (p : LatLng K) (hi : s.activeMission = some i) (hm : s.missions[i]? = some mission)
    (h : env.distanceTo mission.target p ≤ boundaryRadiusOf mission) :
    handleMapClick env p s =
      { s with
        tempLatLng := some p
        tempMarker := some
          { marker := s.nextMarker, targetLatLng := mission.target,
            boundaryRadius := boundaryRadiusOf mission }
        nextMarker := s.nextMarker + 1 } := by
  unfold handleMapClick
  rw [hi]
  dsimp only
  rw [hm]
  dsimp only
  rw [if_neg (not_lt.mpr h)]

theorem handleMapClick_reject (env : Env K) (s : AppState K) (i : Nat) (mission : Mission K)
    (p : LatLng K) (hi : s.activeMission = some i) (hm : s.missions[i]? = some mission)
    (h : boundaryRadiusOf mission < env.distanceTo mission.target p) :
    handleMapClick env p s = s := by
  unfold handleMapClick
  rw [hi]
  dsimp only
  rw [hm]
  dsimp only
  rw [if_pos h]

theorem onDragEnd_tempLatLng (env : Env K) (s : AppState K) (pin : TempMarker K)
    (p : LatLng K) (hpin : s.tempMarker = some pin) :
    (onDragEnd env p s).tempLatLng =
      some (if env.distanceTo pin.targetLatLng p > pin.boundaryRadius then
        constrainedLatLng env pin.targetLatLng pin.boundaryRadius p else p) := by
  unfold onDragEnd
  rw [hpin]
  dsimp only
  split <;> rfl

/-- C11: with `mission` active, a click at `p` with `distance(target, p) <= boundaryRadius`
is accepted (`tempLatLng` becomes `p` and a new pin is created), a click with
`distance(target, p) > boundaryRadius` leaves the whole state, a pin placed before
included, unchanged; and a click on the target itself is accepted whenever the radius is
positive and `distance(target, target) = 0`. -/
theorem click_admission (env : Env K) (s : AppState K) (i : Nat) (mission : Mission K)
    (p : LatLng K) (hi : s.activeMission = some i) (hm : s.missions[i]? = some mission) :
    (env.distanceTo mission.target p ≤ boundaryRadiusOf mission →
      (handleMapClick env p s).tempLatLng = some p ∧
      (handleMapClick env p s).nextMarker = s.nextMarker + 1) ∧
    (boundaryRadiusOf mission < env.distanceTo mission.target p →
      handleMapClick env p s = s) ∧
    (env.distanceTo mission.target mission.target = 0 → 0 < boundaryRadiusOf mission →
      (handleMapClick env mission.target s).tempLatLng = some mission.target) := by
  refine ⟨fun h => ?_, fun h => handleMapClick_reject env s i mission p hi hm h,
    fun h0 hr => ?_⟩
  · rw [handleMapClick_accept env s i mission p hi hm h]
    exact ⟨rfl, rfl⟩
  · rw [handleMapClick_accept env s i mission mission.target hi hm (by rw [h0]; exact hr.le)]

/-- C16: with `mission` active and `R` its `boundary_radius` when that is present and
positive, or 20 when the field is absent, `R` is the radius of click admission (a click is
accepted exactly up to distance `R` and the pin records `R`), and the `dragend` handler of
a pin that records `R` constrains exactly the drops farther than `R`, to the edge at `R`. -/
theorem boundary_radius_used (env : Env K) (s : AppState K) (i : Nat) (mission : Mission K)
    (R : K) (p : LatLng K) (hi : s.activeMission = some i)
    (hm : s.missions[i]? = some mission)
    (hR : (mission.boundary_radius = some R ∧ 0 < R) ∨
      (mission.boundary_radius = none ∧ R = 20)) :
    boundaryRadiusOf mission = R ∧
    (env.distanceTo mission.target p ≤ R →
      (handleMapClick env p s).tempLatLng = some p ∧
      (handleMapClick env p s).tempMarker =
        some { marker := s.nextMarker, targetLatLng := mission.target, boundaryRadius := R }) ∧
    (R < env.distanceTo mission.target p → handleMapClick env p s = s) ∧
    ∀ (s1 : AppState K) (k : Marker) (drop : LatLng K),
      s1.tempMarker =
        some { marker := k, targetLatLng := mission.target, boundaryRadius := R } →
      (onDragEnd env drop s1).tempLatLng =
        some (if env.distanceTo mission.target drop > R then
          constrainedLatLng env mission.target R drop else drop) := by
  have hrad : boundaryRadiusOf mission = R := by
    unfold boundaryRadiusOf
    rcases hR with ⟨h1, h2⟩ | ⟨h1, h2⟩
    · rw [h1]
      dsimp only
      rw [if_neg (ne_of_gt h2)]
    · rw [h1, h2]
      rfl
  refine ⟨hrad, fun h => ?_, fun h => ?_, fun s1 k drop hpin => ?_⟩
  · rw [handleMapClick_accept env s i mission p hi hm (by rw [hrad]; exact h), hrad]
    exact ⟨rfl, rfl⟩
  · exact handleMapClick_reject env s i mission p hi hm (by rw [hrad]; exact h)
  · exact onDragEnd_tempLatLng env s1 _ drop hpin

end Admission

/-! ## Loading the catalog -/

/-- C15: `loadMissions` returns a catalog of the same length in the same order, in which
every mission has status `pending` and `entriesCollected = 0` whatever the record carried,
and every other field of every record is the one of the input. -/
theorem loadMissions_normalizes (missions : List (Mission K)) :
    (loadMissions missions).length = missions.length ∧
    (∀ m ∈ loadMissions missions, m.status = "pending" ∧ m.entriesCollected = 0) ∧
    (loadMissions missions).map
        (fun m => (m.id, m.title, m.instruction, m.target, m.boundary_radius,
          m.required_count, m.suggested_category, m.zoom)) =
      missions.map
        (fun m => (m.id, m.title, m.instruction, m.target, m.boundary_radius,
          m.required_count, m.suggested_category, m.zoom)) := by
  refine ⟨by simp [loadMissions], ?_, ?_⟩
  · intro m hm
    simp only [loadMissions, List.mem_map] at hm
    obtain ⟨m0, _, rfl⟩ := hm
    exact ⟨rfl, rfl⟩
  · simp [loadMissions, Function.comp_def]

/-! ## What an accepted submission stores -/

theorem submit_accepted_missions (inp : SubmitInput K) (s : AppState K) (i : Nat)
    (h : submitAccepted inp s = true) (hi : s.activeMission = some i) :
    (submitLocation inp s).missions = modifyAt recordSubmission i s.missions := by
  obtain ⟨_, _, _, _, _, _, _, hu, _⟩ := submit_accepted_fields inp s h
  rcases submit_cases inp s with h0 | ⟨j, _, _, hj, _, _, _, _, hm, _⟩
  · rw [h0] at hu
    have := congrArg List.length hu
    simp at this
  · rw [hi] at hj
    cases hj
    exact hm

section Numbering

variable [LinearOrderedField K]

theorem counted_reachable (env : Env K) (userId userName : Option String)
    (catalog : List (Mission K)) (hnd : (catalog.map (·.id)).Nodup) (s : AppState K)
    (h : Reachable env userId userName catalog s) : Counted s := by
  obtain ⟨events, rfl⟩ := h
  have h0 : HistoryInv (initialState userId userName catalog) ∧
      ((initialState userId userName catalog).missions.map (·.id)).Nodup ∧
      Counted (initialState userId userName catalog) := by
    refine ⟨historyInv_initial userId userName catalog, ?_, ?_⟩
    · simp only [initialState, loadMissions, List.map_map]
      exact hnd
    · intro j m hm
      have hmem : m ∈ (initialState userId userName catalog).missions :=
        List.mem_iff_getElem?.mpr ⟨j, hm⟩
      simp only [initialState, loadMissions, List.mem_map] at hmem
      obtain ⟨m0, _, rfl⟩ := hmem
      simp [initialState, countForMission]
  exact (run_invariant env
    (fun s => HistoryInv s ∧ (s.missions.map (·.id)).Nodup ∧ Counted s)
    (counted_step env) events _ h0).2.2

/-- C17: in a state reached from a catalog with distinct ids, a `submitLocation` that
passes its guards appends one entry to the end of the ledger, of the active mission and
with `_entry_number` one more than the number of ledger entries that mission had; the
active mission gets `entriesCollected` one higher, and every other mission is unchanged. -/
theorem submit_numbers_entry (env : Env K) (userId userName : Option String)
    (catalog : List (Mission K)) (hnd : (catalog.map (·.id)).Nodup) (s : AppState K)
    (hreach : Reachable env userId userName catalog s) (inp : SubmitInput K)
    (hacc : submitAccepted inp s = true) :
    ∃ (i : Nat) (mission : Mission K) (entry : Entry K),
      s.activeMission = some i ∧ s.missions[i]? = some mission ∧
      (submitLocation inp s).collectedData = s.collectedData ++ [entry] ∧
      entry._mission_id = mission.id ∧
      entry._entry_number = (countForMission s.collectedData mission.id : Int) + 1 ∧
      (∃ m1, (submitLocation inp s).missions[i]? = some m1 ∧ m1.id = mission.id ∧
        m1.entriesCollected = mission.entriesCollected + 1) ∧
      ∀ j, j ≠ i → (submitLocation inp s).missions[j]? = s.missions[j]? := by
  have hC := counted_reachable env userId userName catalog hnd s hreach
  obtain ⟨i, tll, mission, hi, _, hm, hc, _, _⟩ := submit_accepted_fields inp s hacc
  have hms := submit_accepted_missions inp s i hacc hi
  refine ⟨i, mission, newEntry inp s mission tll, hi, hm, hc, rfl, ?_, ?_, ?_⟩
  · show mission.entriesCollected + 1 = _
    rw [hC i mission hm]
  · refine ⟨recordSubmission mission, ?_, recordSubmission_id mission,
      recordSubmission_count mission⟩
    rw [hms, getElem?_modifyAt, if_pos rfl, hm]
    rfl
  · intro j hj
    rw [hms, getElem?_modifyAt, if_neg hj]

end Numbering

/-- C18, as the code has it: the entry an accepted `submitLocation` appends has as
`submitted_at`, `updated_at` and `last_activity_at` the first, second and third reading of
the clock taken while the entry is built, so the three are equal when the clock returns
the same value on these readings. -/
theorem timestamps_are_clock_readings (inp : SubmitInput K) (s : AppState K)
    (hacc : submitAccepted inp s = true) :
    ∃ entry, (submitLocation inp s).collectedData = s.collectedData ++ [entry] ∧
      entry.submitted_at = inp.now1 ∧ entry.updated_at = inp.now2 ∧
      entry.last_activity_at = inp.now3 ∧
      (inp.now1 = inp.now2 → inp.now2 = inp.now3 →
        entry.submitted_at = entry.updated_at ∧
        entry.updated_at = entry.last_activity_at) := by
  obtain ⟨_, tll, mission, _, _, _, hc, _, _⟩ := submit_accepted_fields inp s hacc
  exact ⟨newEntry inp s mission tll, hc, rfl, rfl, rfl, fun h1 h2 => ⟨h1, h2⟩⟩

/-! ## Export: proofs -/

theorem download_empty_none (exportedAt : String) (s : AppState K)
    (h : s.collectedData = []) : (downloadData exportedAt s).2 = none := by
  unfold downloadData
  rw [h]
  rfl

/-- C19, as the code has it: on an empty ledger `downloadData` hands out no document and
returns the state unchanged; the document `exportData` that it does not build would have
`collected_data = []` and `total_entries = 0`. -/
theorem download_empty_ledger (exportedAt : String) (s : AppState K)
    (h : s.collectedData = []) :
    downloadData exportedAt s = (s, none) ∧
    (exportData exportedAt s).collected_data = [] ∧
    (exportData exportedAt s).export_info.total_entries = 0 := by
  refine ⟨?_, h, ?_⟩
  · unfold downloadData
    rw [h]
    rfl
  · show s.collectedData.length = 0
    rw [h]
    rfl

/-- C20: on a non-empty ledger `downloadData` hands out a document and returns the state
unchanged; in the document `total_entries` is the length of the ledger,
`missions_completed` the number of missions with status `completed`, `total_missions` the
number of missions, `mission_summary` has one record per mission, in catalog order, with
its id, title, status, `entriesCollected` and `required_count`, and `collected_data` is
the ledger. -/
theorem download_document (exportedAt : String) (s : AppState K)
    (h : s.collectedData ≠ []) :
    ∃ doc, downloadData exportedAt s = (s, some doc) ∧
      doc.export_info.total_entries = s.collectedData.length ∧
      doc.export_info.missions_completed =
        s.missions.countP (fun m => m.status = "completed") ∧
      doc.export_info.total_missions = s.missions.length ∧
      doc.mission_summary.length = s.missions.length ∧
      (∀ i : Nat, doc.mission_summary[i]? = (s.missions[i]?).map fun m =>
        ({ id := m.id, title := m.title, status := m.status,
           entries_collected := m.entriesCollected,
           required_count := m.required_count } : MissionSummary)) ∧
      doc.collected_data = s.collectedData := by
  refine ⟨exportData exportedAt s, ?_, rfl, ?_, rfl, ?_, ?_, rfl⟩
  · unfold downloadData
    rw [if_neg (fun hl => h (List.eq_nil_of_length_eq_zero hl))]
  · show (s.missions.filter fun m => m.status = "completed").length = _
    rw [List.countP_eq_length_filter]
  · simp [exportData]
  · intro i
    simp [exportData]

/-! ## The constrained point over the real numbers -/

theorem constrained_offsets (env : Env ℝ) (c p : LatLng ℝ) (r : ℝ)
    (hcos : env.cos (c.lat * env.PI / 180) ≠ 0) :
    northMetres c (constrainedLatLng env c r p) =
      r * env.cos (env.atan2 (p.lng - c.lng) (p.lat - c.lat)) ∧
    eastMetres env c (constrainedLatLng env c r p) =
      r * env.sin (env.atan2 (p.lng - c.lng) (p.lat - c.lat)) := by
  unfold northMetres eastMetres constrainedLatLng
  dsimp only
  constructor
  · field_simp
    ring
  · field_simp
    ring

/-- C13: over the real numbers, with the cosine of the latitude of the center not zero
and `r > 0`, the constrained point lies on the edge of the circle under the conversion of
the handler: the square root of the sum of the squares of its north and east offsets in
metres is `r`.  (This holds for every dropped point, the center included.) -/
theorem constrained_on_edge (env : Env ℝ) (hmath : RealMath env) (c p : LatLng ℝ) (r : ℝ)
    (hr : 0 < r) (hcos : env.cos (c.lat * env.PI / 180) ≠ 0) :
    Real.sqrt
      ((111320 * ((constrainedLatLng env c r p).lat - c.lat)) ^ 2 +
       (111320 * env.cos (c.lat * env.PI / 180) *
          ((constrainedLatLng env c r p).lng - c.lng)) ^ 2) = r := by
  obtain ⟨hn, he⟩ := constrained_offsets env c p r hcos
  unfold northMetres at hn
  unfold eastMetres at he
  rw [hn, he, hmath.1, hmath.2.1]
  have hsq : (r * Real.cos (env.atan2 (p.lng - c.lng) (p.lat - c.lat))) ^ 2 +
      (r * Real.sin (env.atan2 (p.lng - c.lng) (p.lat - c.lat))) ^ 2 = r ^ 2 := by
    have := Real.cos_sq_add_sin_sq (env.atan2 (p.lng - c.lng) (p.lat - c.lat))
    calc (r * Real.cos (env.atan2 (p.lng - c.lng) (p.lat - c.lat))) ^ 2 +
          (r * Real.sin (env.atan2 (p.lng - c.lng) (p.lat - c.lat))) ^ 2
        = r ^ 2 * (Real.cos (env.atan2 (p.lng - c.lng) (p.lat - c.lat)) ^ 2 +
            Real.sin (env.atan2 (p.lng - c.lng) (p.lat - c.lat)) ^ 2) := by ring
      _ = r ^ 2 := by rw [this, mul_one]
  rw [hsq]
  exact Real.sqrt_sq hr.le

/-- The bearing is lost: when the dropped point is neither due north or south nor due east
or west of the center and the cosine of the latitude of the center is neither 0 nor 1, the
offset of the constrained point in the metre frame is no positive multiple of the offset of
the dropped point.  The handler takes the bearing from the differences in degrees and
applies it in metres. -/
theorem bearing_lost (env : Env ℝ) (hmath : RealMath env) (c p : LatLng ℝ) (r : ℝ)
    (hlat : p.lat ≠ c.lat) (hlng : p.lng ≠ c.lng)
    (hcos : env.cos (c.lat * env.PI / 180) ≠ 0)
    (hcos1 : env.cos (c.lat * env.PI / 180) ≠ 1) :
    ¬ ∃ k : ℝ, 0 < k ∧
      northMetres c (constrainedLatLng env c r p) = k * northMetres c p ∧
      eastMetres env c (constrainedLatLng env c r p) = k * eastMetres env c p := by
  rintro ⟨k, hk, hn, he⟩
  obtain ⟨hn1, he1⟩ := constrained_offsets env c p r hcos
  rw [hn1] at hn
  rw [he1] at he
  rw [hmath.2.2.2, hmath.1] at hn
  rw [hmath.2.2.2, hmath.2.1] at he
  have hx : p.lat - c.lat ≠ 0 := sub_ne_zero.mpr hlat
  have hy : p.lng - c.lng ≠ 0 := sub_ne_zero.mpr hlng
  have hz : (⟨p.lat - c.lat, p.lng - c.lng⟩ : ℂ) ≠ 0 := by
    intro h0
    exact hx (congrArg Complex.re h0)
  have habs : 0 < Complex.abs ⟨p.lat - c.lat, p.lng - c.lng⟩ := Complex.abs.pos hz
  rw [Complex.cos_arg hz] at hn
  rw [Complex.sin_arg] at he
  unfold northMetres at hn
  unfold eastMetres at he
  dsimp only at hn he
  set ρ := Complex.abs ⟨p.lat - c.lat, p.lng - c.lng⟩ with hρ
  set C := env.cos (c.lat * env.PI / 180) with hC
  have h1 : r = k * 111320 * ρ := by
    have : r * (p.lat - c.lat) = k * 111320 * ρ * (p.lat - c.lat) := by
      field_simp at hn
      linarith
    exact mul_right_cancel₀ hx this
  have h2 : r = k * 111320 * C * ρ := by
    have : r * (p.lng - c.lng) = k * 111320 * C * ρ * (p.lng - c.lng) := by
      field_simp at he
      linarith
    exact mul_right_cancel₀ hy this
  have h3 : k * 111320 * ρ * (1 - C) = 0 := by
    have : k * 111320 * ρ = k * 111320 * C * ρ := h1.symm.trans h2
    linarith
  have hne : k * 111320 * ρ ≠ 0 := by positivity
  rcases mul_eq_zero.mp h3 with h4 | h4
  · exact hne h4
  · exact hcos1 (by linarith)

/-! ## The concrete session, continued -/

theorem pinnedState_mission : pinnedState.missions[0]? = some demoMission := by
  rw [pinnedState_fields.2.2.1]
  rfl

theorem pinnedState_collectedData : pinnedState.collectedData = [] := by
  norm_num [pinnedState, run, step, initialState, loadMissions, selectMission,
    findMissionIdx, demoMission, clearMapElements, handleMapClick, boundaryRadiusOf,
    actionZoneRadius, demoEnv, demoDistance]

theorem submittedState_collectedData : submittedState.collectedData ≠ [] := by
  rw [submittedState_eq]
  obtain ⟨_, _, _, _, _, _, hc, _, _⟩ :=
    submit_accepted_fields demoInput pinnedState pinnedState_accepts
  rw [hc]
  simp

/-- Witness of C11 (`click_admission`): a second click, at `farPoint`, with the pin on the
target. -/
theorem click_admission_witness :
    (pinnedState.activeMission = some 0 ∧ pinnedState.missions[0]? = some demoMission) ∧
    (demoEnv.distanceTo demoMission.target farPoint ≤ boundaryRadiusOf demoMission →
      (handleMapClick demoEnv farPoint pinnedState).tempLatLng = some farPoint ∧
      (handleMapClick demoEnv farPoint pinnedState).nextMarker =
        pinnedState.nextMarker + 1) ∧
    (boundaryRadiusOf demoMission < demoEnv.distanceTo demoMission.target farPoint →
      handleMapClick demoEnv farPoint pinnedState = pinnedState) ∧
    (demoEnv.distanceTo demoMission.target demoMission.target = 0 →
      0 < boundaryRadiusOf demoMission →
      (handleMapClick demoEnv demoMission.target pinnedState).tempLatLng =
        some demoMission.target) :=
  ⟨⟨pinnedState_fields.1, pinnedState_mission⟩,
    click_admission demoEnv pinnedState 0 demoMission farPoint pinnedState_fields.1
      pinnedState_mission⟩

/-- Witness of C16 (`boundary_radius_used`): the mission of the session, whose
`boundary_radius` is 20. -/
theorem boundary_radius_used_witness :
    (pinnedState.activeMission = some 0 ∧ pinnedState.missions[0]? = some demoMission ∧
      ((demoMission.boundary_radius = some 20 ∧ (0 : ℚ) < 20) ∨
        (demoMission.boundary_radius = none ∧ (20 : ℚ) = 20))) ∧
    boundaryRadiusOf demoMission = 20 ∧
    (demoEnv.distanceTo demoMission.target farPoint ≤ 20 →
      (handleMapClick demoEnv farPoint pinnedState).tempLatLng = some farPoint ∧
      (handleMapClick demoEnv farPoint pinnedState).tempMarker =
        some { marker := pinnedState.nextMarker, targetLatLng := demoMission.target,
               boundaryRadius := 20 }) ∧
    (20 < demoEnv.distanceTo demoMission.target farPoint →
      handleMapClick demoEnv farPoint pinnedState = pinnedState) ∧
    ∀ (s1 : AppState ℚ) (k : Marker) (drop : LatLng ℚ),
      s1.tempMarker =
        some { marker := k, targetLatLng := demoMission.target, boundaryRadius := 20 } →
      (onDragEnd demoEnv drop s1).tempLatLng =
        some (if demoEnv.distanceTo demoMission.target drop > 20 then
          constrainedLatLng demoEnv demoMission.target 20 drop else drop) :=
  ⟨⟨pinnedState_fields.1, pinnedState_mission, Or.inl ⟨rfl, by norm_num⟩⟩,
    boundary_radius_used demoEnv pinnedState 0 demoMission 20 farPoint pinnedState_fields.1
      pinnedState_mission (Or.inl ⟨rfl, by norm_num⟩)⟩

/-- Witness of C17 (`submit_numbers_entry`): the first submission of the session. -/
theorem submit_numbers_entry_witness :
    (([demoMission].map (·.id)).Nodup ∧
      Reachable demoEnv (some "T-01") (some "Ana") [demoMission] pinnedState ∧
      submitAccepted demoInput pinnedState = true) ∧
    ∃ (i : Nat) (mission : Mission ℚ) (entry : Entry ℚ),
      pinnedState.activeMission = some i ∧ pinnedState.missions[i]? = some mission ∧
      (submitLocation demoInput pinnedState).collectedData =
        pinnedState.collectedData ++ [entry] ∧
      entry._mission_id = mission.id ∧
      entry._entry_number = (countForMission pinnedState.collectedData mission.id : Int) + 1 ∧
      (∃ m1, (submitLocation demoInput pinnedState).missions[i]? = some m1 ∧
        m1.id = mission.id ∧ m1.entriesCollected = mission.entriesCollected + 1) ∧
      ∀ j, j ≠ i → (submitLocation demoInput pinnedState).missions[j]? =
        pinnedState.missions[j]? :=
  ⟨⟨by decide, demo_reachable _, pinnedState_accepts⟩,
    submit_numbers_entry demoEnv (some "T-01") (some "Ana") [demoMission] (by decide)
      pinnedState (demo_reachable _) demoInput pinnedState_accepts⟩

/-- Witness of C18 as amended (`timestamps_are_clock_readings`): the first submission of
the session. -/
theorem timestamps_are_clock_readings_witness :
    submitAccepted demoInput pinnedState = true ∧
    ∃ entry, (submitLocation demoInput pinnedState).collectedData =
        pinnedState.collectedData ++ [entry] ∧
      entry.submitted_at = demoInput.now1 ∧ entry.updated_at = demoInput.now2 ∧
      entry.last_activity_at = demoInput.now3 ∧
      (demoInput.now1 = demoInput.now2 → demoInput.now2 = demoInput.now3 →
        entry.submitted_at = entry.updated_at ∧
        entry.updated_at = entry.last_activity_at) :=
  ⟨pinnedState_accepts,
    timestamps_are_clock_readings demoInput pinnedState pinnedState_accepts⟩

/-- C18 (fails on the code): the entry of the first submission of the session, made while
the clock moves from `...00.000Z` to `...00.001Z` between the second and the third reading,
has `submitted_at` and `updated_at` at the earlier and `last_activity_at` at the later
instant: `submitLocation` reads the clock once for each timestamp. -/
theorem timestamps_read_separately :
    submittedState.collectedData.map
        (fun e => (e.submitted_at, e.updated_at, e.last_activity_at)) =
      [("2025-01-01T08:00:00.000Z", "2025-01-01T08:00:00.000Z",
        "2025-01-01T08:00:00.001Z")] ∧
    ∃ e ∈ submittedState.collectedData, e.updated_at ≠ e.last_activity_at := by
  obtain ⟨_, tll, mission, _, _, _, hc, _, _⟩ :=
    submit_accepted_fields demoInput pinnedState pinnedState_accepts
  rw [pinnedState_collectedData] at hc
  rw [submittedState_eq, hc]
  refine ⟨rfl, newEntry demoInput pinnedState mission tll, by simp, ?_⟩
  show demoInput.now2 ≠ demoInput.now3
  decide

/-- C19 (fails on the code): on the freshly loaded session, whose ledger is empty,
`downloadData` hands out no document, so none with `collected_data = []` and
`total_entries = 0`. -/
theorem download_empty_no_document :
    ¬ ∃ doc,
      (downloadData "2025-01-01T09:00:00.000Z"
        (initialState (some "T-01") (some "Ana") [demoMission])).2 = some doc ∧
      doc.collected_data = [] ∧ doc.export_info.total_entries = 0 := by
  rintro ⟨doc, h, _⟩
  have hnone : (downloadData "2025-01-01T09:00:00.000Z"
      (initialState (some "T-01") (some "Ana") [demoMission])).2 = none := by
    rw [(download_empty_none "2025-01-01T09:00:00.000Z"
      (initialState (some "T-01") (some "Ana") [demoMission]) rfl)]
  rw [hnone] at h
  cases h

/-- Witness of C19 as amended (`download_empty_ledger`): the freshly loaded session. -/
theorem download_empty_ledger_witness :
    (initialState (some "T-01") (some "Ana") [demoMission]).collectedData = [] ∧
    downloadData "2025-01-01T09:00:00.000Z"
        (initialState (some "T-01") (some "Ana") [demoMission]) =
      (initialState (some "T-01") (some "Ana") [demoMission], none) ∧
    (exportData "2025-01-01T09:00:00.000Z"
      (initialState (some "T-01") (some "Ana") [demoMission])).collected_data = [] ∧
    (exportData "2025-01-01T09:00:00.000Z"
      (initialState (some "T-01") (some "Ana") [demoMission])).export_info.total_entries
        = 0 :=
  ⟨rfl, download_empty_ledger "2025-01-01T09:00:00.000Z"
    (initialState (some "T-01") (some "Ana") [demoMission]) rfl⟩

/-- Witness of C20 (`download_document`): the session after one submission. -/
theorem download_document_witness :
    submittedState.collectedData ≠ [] ∧
    ∃ doc, downloadData "2025-01-01T09:00:00.000Z" submittedState =
        (submittedState, some doc) ∧
      doc.export_info.total_entries = submittedState.collectedData.length ∧
      doc.export_info.missions_completed =
        submittedState.missions.countP (fun m => m.status = "completed") ∧
      doc.export_info.total_missions = submittedState.missions.length ∧
      doc.mission_summary.length = submittedState.missions.length ∧
      (∀ i : Nat, doc.mission_summary[i]? = (submittedState.missions[i]?).map fun m =>
        ({ id := m.id, title := m.title, status := m.status,
           entries_collected := m.entriesCollected,
           required_count := m.required_count } : MissionSummary)) ∧
      doc.collected_data = submittedState.collectedData :=
  ⟨submittedState_collectedData,
    download_document "2025-01-01T09:00:00.000Z" submittedState submittedState_collectedData⟩

/-! ## The constrained point at latitude 60 -/

/-- C13 witness (`constrained_on_edge`): center (60, 0), radius 20 m, the marker dropped
at (60.001, 0.001), with the real `Math` functions. -/
theorem constrained_on_edge_witness :
    let env : Env ℝ :=
      { distanceTo := fun a b => 111320 * (|a.lat - b.lat| + |a.lng - b.lng|)
        atan2 := fun y x => Complex.arg ⟨x, y⟩
        cos := Real.cos
        sin := Real.sin
        PI := Real.pi }
    let c : LatLng ℝ := { lat := 60, lng := 0 }
    let p : LatLng ℝ := { lat := 60001 / 1000, lng := 1 / 1000 }
    (RealMath env ∧ (0 : ℝ) < 20 ∧ env.cos (c.lat * env.PI / 180) ≠ 0) ∧
    Real.sqrt
      ((111320 * ((constrainedLatLng env c 20 p).lat - c.lat)) ^ 2 +
       (111320 * env.cos (c.lat * env.PI / 180) *
          ((constrainedLatLng env c 20 p).lng - c.lng)) ^ 2) = 20 := by
  intro env c p
  have hmath : RealMath env := ⟨rfl, rfl, rfl, fun _ _ => rfl⟩
  have hhalf : env.cos (c.lat * env.PI / 180) = 1 / 2 := by
    show Real.cos (60 * Real.pi / 180) = 1 / 2
    rw [show (60 : ℝ) * Real.pi / 180 = Real.pi / 3 by ring]
    exact Real.cos_pi_div_three
  have hcos : env.cos (c.lat * env.PI / 180) ≠ 0 := by
    rw [hhalf]
    norm_num
  exact ⟨⟨hmath, by norm_num, hcos⟩,
    constrained_on_edge env hmath c p 20 (by norm_num) hcos⟩

/-- C12 (fails on the code): with the real `Math` functions, center (60, 0), radius 20 m
and the marker dropped at (60.001, 0.001), which is about 111 m north and 56 m east of the
center, the offset of the constrained point in the metre frame (north, east) is no
positive multiple of the offset of the dropped point: the bearing is not preserved. -/
theorem bearing_not_preserved :
    let env : Env ℝ :=
      { distanceTo := fun a b => 111320 * (|a.lat - b.lat| + |a.lng - b.lng|)
        atan2 := fun y x => Complex.arg ⟨x, y⟩
        cos := Real.cos
        sin := Real.sin
        PI := Real.pi }
    let c : LatLng ℝ := { lat := 60, lng := 0 }
    let p : LatLng ℝ := { lat := 60001 / 1000, lng := 1 / 1000 }
    env.distanceTo c p > 20 ∧
    ¬ ∃ k : ℝ, 0 < k ∧
      northMetres c (constrainedLatLng env c 20 p) = k * northMetres c p ∧
      eastMetres env c (constrainedLatLng env c 20 p) = k * eastMetres env c p := by
  intro env c p
  have hmath : RealMath env := ⟨rfl, rfl, rfl, fun _ _ => rfl⟩
  have hhalf : env.cos (c.lat * env.PI / 180) = 1 / 2 := by
    show Real.cos (60 * Real.pi / 180) = 1 / 2
    rw [show (60 : ℝ) * Real.pi / 180 = Real.pi / 3 by ring]
    exact Real.cos_pi_div_three
  refine ⟨?_, bearing_lost env hmath c p 20 ?_ ?_ ?_ ?_⟩
  · show 111320 * (|(60 : ℝ) - 60001 / 1000| + |(0 : ℝ) - 1 / 1000|) > 20
    rw [abs_of_neg (by norm_num), abs_of_neg (by norm_num)]
    norm_num
  · show (60001 / 1000 : ℝ) ≠ 60
    norm_num
  · show (1 / 1000 : ℝ) ≠ 0
    norm_num
  · rw [hhalf]; norm_num
  · rw [hhalf]; norm_num

/-! ## Categories: proofs -/

theorem mapSubcategoryLoop_absent (subcategory : String)
    (table : List (String × List String))
    (h : ∀ entry ∈ table, subcategory ∉ entry.2) :
    mapSubcategoryLoop subcategory table = "Others" := by
  induction table with
  | nil => rfl
  | cons entry rest ih =>
    obtain ⟨category, subcategories⟩ := entry
    have h1 : subcategory ∉ subcategories := h (category, subcategories) (by simp)
    simp only [mapSubcategoryLoop, if_neg h1]
    exact ih (fun e he => h e (by simp [he]))

theorem mapSubcategoryLoop_unique (subcategory category : String)
    (table : List (String × List String))
    (hin : ∃ entry ∈ table, entry.1 = category ∧ subcategory ∈ entry.2)
    (huniq : ∀ entry ∈ table, subcategory ∈ entry.2 → entry.1 = category) :
    mapSubcategoryLoop subcategory table = category := by
  induction table with
  | nil =>
    obtain ⟨entry, he, _⟩ := hin
    cases he
  | cons entry rest ih =>
    obtain ⟨c0, subs0⟩ := entry
    by_cases h0 : subcategory ∈ subs0
    · simp only [mapSubcategoryLoop, if_pos h0]
      exact huniq (c0, subs0) (by simp) h0
    · simp only [mapSubcategoryLoop, if_neg h0]
      apply ih
      · obtain ⟨entry, he, hc, hs⟩ := hin
        rcases List.mem_cons.mp he with h1 | h1
        · subst h1
          exact absurd hs h0
        · exact ⟨entry, h1, hc, hs⟩
      · intro e he
        exact huniq e (by simp [he])

/-- What `mapSubcategoryToCategory` does apart from `'Others'`: a subcategory listed under
one category only is mapped to that category, and a string listed under no category is
mapped to `'Others'`. -/
theorem mapSubcategoryToCategory_listed (subcategory : String) :
    (∀ category : String,
      (∃ entry ∈ CATEGORY_SUBCATEGORIES, entry.1 = category ∧ subcategory ∈ entry.2) →
      (∀ entry ∈ CATEGORY_SUBCATEGORIES, subcategory ∈ entry.2 → entry.1 = category) →
      mapSubcategoryToCategory subcategory = category) ∧
    ((∀ entry ∈ CATEGORY_SUBCATEGORIES, subcategory ∉ entry.2) →
      mapSubcategoryToCategory subcategory = "Others") :=
  ⟨fun category hin huniq =>
      mapSubcategoryLoop_unique subcategory category CATEGORY_SUBCATEGORIES hin huniq,
    fun h => mapSubcategoryLoop_absent subcategory CATEGORY_SUBCATEGORIES h⟩

/-- C26 (fails on the code): `'Others'` is listed under `'Infrastructure'`, the first key
of the table, as well as under `'Others'`, and the loop returns at the first key that
lists it: `mapSubcategoryToCategory('Others')` is `'Infrastructure'`, not `'Others'`. -/
theorem others_maps_to_infrastructure :
    mapSubcategoryToCategory "Others" = "Infrastructure" ∧
    mapSubcategoryToCategory "Others" ≠ "Others" ∧
    ("Others", ["Others"]) ∈ CATEGORY_SUBCATEGORIES := by
  refine ⟨by decide, by decide, by decide⟩

/-! ## Identifiers: proofs -/

theorem hexDigit_lower (v : Fin 16) : isLowerHex (hexDigit v.val) = true := by
  revert v
  decide

theorem hexDigit_variant (v : Fin 16) :
    hexDigit ((v.val &&& 3) ||| 8) = '8' ∨ hexDigit ((v.val &&& 3) ||| 8) = '9' ∨
    hexDigit ((v.val &&& 3) ||| 8) = 'a' ∨ hexDigit ((v.val &&& 3) ||| 8) = 'b' := by
  revert v
  decide

theorem generateUUID_data (draws : Nat → Fin 16) :
    (generateUUID draws).data =
      [hexDigit (draws 0).val, hexDigit (draws 1).val, hexDigit (draws 2).val,
       hexDigit (draws 3).val, hexDigit (draws 4).val, hexDigit (draws 5).val,
       hexDigit (draws 6).val, hexDigit (draws 7).val, '-',
       hexDigit (draws 8).val, hexDigit (draws 9).val, hexDigit (draws 10).val,
       hexDigit (draws 11).val, '-',
       '4', hexDigit (draws 12).val, hexDigit (draws 13).val, hexDigit (draws 14).val, '-',
       hexDigit (((draws 15).val &&& 3) ||| 8), hexDigit (draws 16).val,
       hexDigit (draws 17).val, hexDigit (draws 18).val, '-',
       hexDigit (draws 19).val, hexDigit (draws 20).val, hexDigit (draws 21).val,
       hexDigit (draws 22).val, hexDigit (draws 23).val, hexDigit (draws 24).val,
       hexDigit (draws 25).val, hexDigit (draws 26).val, hexDigit (draws 27).val,
       hexDigit (draws 28).val, hexDigit (draws 29).val, hexDigit (draws 30).val] := by
  rfl

theorem utf16Units_hexDigit (v : Fin 16) : utf16Units (hexDigit v.val) = 1 := by
  revert v
  decide

theorem utf16Units_hexDigit_variant (v : Fin 16) :
    utf16Units (hexDigit ((v.val &&& 3) ||| 8)) = 1 := by
  revert v
  decide

/-- C23: whatever the random draws, `generateUUID` returns a string of 36 characters (36
code points, and 36 UTF-16 code units), with `-` at positions 8, 13, 18 and 23, `4` at
position 14, one of `8`, `9`, `a`, `b` at position 19, and a character of `0`-`9`, `a`-`f`
at every other position. -/
theorem generateUUID_shape (draws : Nat → Fin 16) :
    (generateUUID draws).data.length = 36 ∧
    jsLength (generateUUID draws) = 36 ∧
    (generateUUID draws).data[8]? = some '-' ∧
    (generateUUID draws).data[13]? = some '-' ∧
    (generateUUID draws).data[18]? = some '-' ∧
    (generateUUID draws).data[23]? = some '-' ∧
    (generateUUID draws).data[14]? = some '4' ∧
    ((generateUUID draws).data[19]? = some '8' ∨ (generateUUID draws).data[19]? = some '9' ∨
      (generateUUID draws).data[19]? = some 'a' ∨
      (generateUUID draws).data[19]? = some 'b') ∧
    ∀ i : Nat, i < 36 → i ≠ 8 → i ≠ 13 → i ≠ 14 → i ≠ 18 → i ≠ 19 → i ≠ 23 →
      ∃ c, (generateUUID draws).data[i]? = some c ∧ isLowerHex c = true := by
  have hdash : utf16Units '-' = 1 := by decide
  have hfour : utf16Units '4' = 1 := by decide
  refine ⟨?_, ?_, ?_, ?_, ?_, ?_, ?_, ?_, ?_⟩
  · rw [generateUUID_data]; rfl
  · unfold jsLength
    rw [generateUUID_data]
    simp [utf16Units_hexDigit, utf16Units_hexDigit_variant, hdash, hfour]
  · rw [generateUUID_data]; rfl
  · rw [generateUUID_data]; rfl
  · rw [generateUUID_data]; rfl
  · rw [generateUUID_data]; rfl
  · rw [generateUUID_data]; rfl
  · rw [generateUUID_data]
    rcases hexDigit_variant (draws 15) with h | h | h | h
    · exact Or.inl (by simp [h])
    · exact Or.inr (Or.inl (by simp [h]))
    · exact Or.inr (Or.inr (Or.inl (by simp [h])))
    · exact Or.inr (Or.inr (Or.inr (by simp [h])))
  · intro i hi h8 h13 h14 h18 h19 h23
    rw [generateUUID_data]
    interval_cases i <;> first
      | exact absurd rfl h8
      | exact absurd rfl h13
      | exact absurd rfl h14
      | exact absurd rfl h18
      | exact absurd rfl h19
      | exact absurd rfl h23
      | exact ⟨_, rfl, hexDigit_lower _⟩

/-! ## The undo stack, index by index -/

section Mirror

variable [LinearOrderedField K]

/-- C25: in every state reached from the freshly loaded catalog the ledger mirrors the undo
stack: they have the same length, and the action at position `k` of the undo stack has
`entryIndex = k`, holds the ledger entry at position `k`, and names the mission of that
entry.  So the index recorded when an action is pushed stays the position of its entry. -/
theorem ledger_mirrors_undo_stack (env : Env K) (userId userName : Option String)
    (catalog : List (Mission K)) (s : AppState K)
    (h : Reachable env userId userName catalog s) :
    s.collectedData.length = s.undoStack.length ∧
    ∀ (k : Nat) (a : Action K), s.undoStack[k]? = some a →
      a.entryIndex = (k : Int) ∧
      ∃ e, s.collectedData[k]? = some e ∧ a.entry = e ∧ a.missionId = e._mission_id := by
  have hM := (historyInv_reachable env userId userName catalog s h).mirror
  refine ⟨mirror_length s hM, fun k a hk => ⟨?_, a.entry, ?_, rfl, ?_⟩⟩
  · have hlt : k < s.undoStack.length := (List.getElem?_eq_some.mp hk).1
    have h1 : (s.undoStack.map (·.entryIndex))[k]? = some a.entryIndex := by
      rw [List.getElem?_map, hk]
      rfl
    rw [hM.indices, List.getElem?_map, List.getElem?_range hlt] at h1
    exact (Option.some.inj h1).symm
  · rw [← hM.entries, List.getElem?_map, hk]
    rfl
  · exact hM.undoIds a (List.getElem?_mem hk)

end Mirror

/-! ## Undo and redo on one mission -/

theorem findMissionIdx_absent (x : String) (l : List (Mission K))
    (h : ∀ m ∈ l, m.id ≠ x) : findMissionIdx x l = none := by
  induction l with
  | nil => rfl
  | cons m ms ih =>
    have h1 : ¬ m.id = x := h m (by simp)
    simp only [findMissionIdx, if_neg h1, ih (fun m1 hm1 => h m1 (by simp [hm1]))]
    rfl

theorem undo_found_mission (s : AppState K) (lastAction : Action K) (j : Nat)
    (mission : Mission K) (htop : s.undoStack.getLast? = some lastAction)
    (hfind : findMissionIdx lastAction.missionId s.missions = some j)
    (hm : s.missions[j]? = some mission) :
    (undoLastSubmission s).missions[j]? = some (reverseSubmission mission) := by
  obtain ⟨us, hus⟩ := List.getLast?_eq_some_iff.mp htop
  obtain ⟨_, _, _, hms, _, _⟩ := undo_fields s us lastAction hus
  rw [hfind] at hms
  dsimp only at hms
  rw [hms, getElem?_modifyAt, if_pos rfl, hm]
  rfl

theorem countedFound_shift (s s1 : AppState K) (x0 : String) (f : Mission K → Mission K)
    (d : Int) (hid : ∀ m, (f m).id = m.id)
    (hc : ∀ m, (f m).entriesCollected = m.entriesCollected + d)
    (hm : s1.missions =
      (match findMissionIdx x0 s.missions with
       | none => s.missions
       | some j => modifyAt f j s.missions))
    (hx : (countForMission s1.collectedData x0 : Int) = countForMission s.collectedData x0 + d)
    (hy : ∀ y, y ≠ x0 → countForMission s1.collectedData y = countForMission s.collectedData y)
    (hC : CountedFound s) : CountedFound s1 := by
  intro x j m hfind hget
  cases hf0 : findMissionIdx x0 s.missions with
  | none =>
    rw [hf0] at hm
    dsimp only at hm
    rw [hm] at hfind hget
    have hne : x ≠ x0 := by
      intro he
      rw [he, hf0] at hfind
      cases hfind
    rw [hy x hne]
    exact hC x j m hfind hget
  | some j0 =>
    rw [hf0] at hm
    dsimp only at hm
    rw [hm, findMissionIdx_modifyAt f hid] at hfind
    rw [hm, getElem?_modifyAt] at hget
    obtain ⟨m0, hm0, hid0⟩ := findMissionIdx_some x0 s.missions j0 hf0
    by_cases hxe : x = x0
    · rw [hxe, hf0] at hfind
      have hj : j = j0 := (Option.some.inj hfind).symm
      rw [if_pos hj, hj, hm0] at hget
      simp only [Option.map_some', Option.some.injEq] at hget
      rw [← hget, hc, hxe, hx, hC x0 j0 m0 hf0 hm0]
    · have hj : j ≠ j0 := by
        intro he
        subst he
        obtain ⟨m1, hm1, hid1⟩ := findMissionIdx_some x s.missions j hfind
        rw [hm0] at hm1
        cases hm1
        exact hxe (hid1.symm.trans hid0)
      rw [if_neg hj] at hget
      rw [hy x hxe]
      exact hC x j m hfind hget

theorem countedFound_push (s s1 : AppState K) (hC : CountedFound s) (e : Entry K)
    (hc : s1.collectedData = s.collectedData ++ [e])
    (hm : s1.missions =
      (match findMissionIdx e._mission_id s.missions with
       | none => s.missions
       | some j => modifyAt recordSubmission j s.missions)) : CountedFound s1 := by
  refine countedFound_shift s s1 e._mission_id recordSubmission 1 recordSubmission_id
    recordSubmission_count hm ?_ ?_ hC
  · rw [hc, countForMission_snoc]; simp
  · intro y hy
    rw [hc, countForMission_snoc, if_neg (fun h => hy h.symm)]
    rfl

theorem countedFound_undo (s : AppState K) (hM : StacksMirror s) (hC : CountedFound s) :
    CountedFound (undoLastSubmission s) := by
  rcases List.eq_nil_or_concat s.undoStack with h | ⟨us, a, h⟩
  · rw [undo_nil s h]; exact hC
  · rw [List.concat_eq_append] at h
    obtain ⟨_, hc, _, hm, _, _⟩ := undo_fields s us a h
    obtain ⟨hcd, hidx, _⟩ := mirror_top s hM us a h
    have hid : a.missionId = a.entry._mission_id := hM.undoIds a (by rw [h]; simp)
    have hc1 : (undoLastSubmission s).collectedData = us.map (·.entry) := by
      rw [hc, hcd, hidx]
      have := splice1_last (us.map (·.entry)) a.entry
      rw [List.length_map] at this
      exact this
    refine countedFound_shift s _ a.missionId reverseSubmission (-1) reverseSubmission_id
      ?_ hm ?_ ?_ hC
    · intro m; rw [reverseSubmission_count]; rfl
    · rw [hc1, hcd, countForMission_snoc, if_pos hid.symm]
      push_cast
      ring
    · intro y hy
      rw [hc1, hcd, countForMission_snoc, if_neg (fun h => hy (hid.trans h).symm)]
      rfl

section Decrement

variable [LinearOrderedField K]

theorem countedFound_step (env : Env K) (s : AppState K) (ev : Event K)
    (h : HistoryInv s ∧ CountedFound s) :
    HistoryInv (step env s ev) ∧ CountedFound (step env s ev) := by
  obtain ⟨hH, hC⟩ := h
  refine ⟨historyInv_step env s ev hH, ?_⟩
  cases ev with
  | submit inp =>
    rcases submit_cases inp s with
      h0 | ⟨i, tll, mission, hi, _, hmi, _, hc, hm, _, _, _, _⟩
    · simp only [step]; rw [h0]; exact hC
    · obtain ⟨m, hm1, hfind⟩ := hH.active i hi
      rw [hmi] at hm1
      cases hm1
      refine countedFound_push s _ hC _ hc ?_
      show _ = (match findMissionIdx mission.id s.missions with
        | none => s.missions
        | some j => modifyAt recordSubmission j s.missions)
      rw [hfind]
      exact hm
  | undo => exact countedFound_undo s hH.mirror hC
  | redo =>
    rcases List.eq_nil_or_concat s.redoStack with h0 | ⟨rs, a, h0⟩
    · simp only [step]; rw [redo_empty_unchanged s h0]; exact hC
    · rw [List.concat_eq_append] at h0
      obtain ⟨_, hc, _, hm, _, _⟩ := redo_fields s rs a h0
      have hid : a.missionId = a.entry._mission_id :=
        hH.mirror.redoIds a (by rw [h0]; simp)
      refine countedFound_push s _ hC a.entry hc ?_
      rw [← hid]
      exact hm
  | selectMission missionId =>
    have hf := step_frame env s (Event.selectMission missionId) (fun _ => by simp)
      (by simp) (by simp)
    unfold CountedFound
    rw [hf.1, hf.2.1]
    exact hC
  | backToMissionList =>
    have hf := step_frame env s Event.backToMissionList (fun _ => by simp)
      (by simp) (by simp)
    unfold CountedFound
    rw [hf.1, hf.2.1]
    exact hC
  | mapClick latlng =>
    have hf := step_frame env s (Event.mapClick latlng) (fun _ => by simp)
      (by simp) (by simp)
    unfold CountedFound
    rw [hf.1, hf.2.1]
    exact hC
  | drag latlng =>
    have hf := step_frame env s (Event.drag latlng) (fun _ => by simp)
      (by simp) (by simp)
    unfold CountedFound
    rw [hf.1, hf.2.1]
    exact hC
  | dragend latlng =>
    have hf := step_frame env s (Event.dragend latlng) (fun _ => by simp)
      (by simp) (by simp)
    unfold CountedFound
    rw [hf.1, hf.2.1]
    exact hC

theorem countedFound_reachable (env : Env K) (userId userName : Option String)
    (catalog : List (Mission K)) (s : AppState K)
    (h : Reachable env userId userName catalog s) : CountedFound s := by
  obtain ⟨events, rfl⟩ := h
  have h0 : HistoryInv (initialState userId userName catalog) ∧
      CountedFound (initialState userId userName catalog) := by
    refine ⟨historyInv_initial userId userName catalog, ?_⟩
    intro x j m _ hm
    have hmem : m ∈ (initialState userId userName catalog).missions :=
      List.getElem?_mem hm
    simp only [initialState, loadMissions, List.mem_map] at hmem
    obtain ⟨m0, _, rfl⟩ := hmem
    simp [initialState, countForMission]
  exact (run_invariant env (fun s => HistoryInv s ∧ CountedFound s)
    (countedFound_step env) events _ h0).2

end Decrement

/-- The guard `if (mission)` of `redoLastUndo`: when the top action of the redo stack names
a mission id that no mission of the catalog has, every mission is left as it is, and the
entry of the action is still appended to the ledger, the redo stack popped and the action
pushed on the undo stack. -/
theorem redo_skips_missing_mission (s : AppState K) (lastUndo : Action K)
    (htop : s.redoStack.getLast? = some lastUndo)
    (habsent : ∀ m ∈ s.missions, m.id ≠ lastUndo.missionId) :
    (redoLastUndo s).missions = s.missions ∧
    (redoLastUndo s).collectedData = s.collectedData ++ [lastUndo.entry] ∧
    (redoLastUndo s).redoStack = s.redoStack.dropLast ∧
    (redoLastUndo s).undoStack = s.undoStack ++
      [{ entry := lastUndo.entry, marker := s.nextMarker, missionId := lastUndo.missionId,
         entryIndex := (s.collectedData.length : Int) }] := by
  obtain ⟨rs, hrs⟩ := List.getLast?_eq_some_iff.mp htop
  obtain ⟨hr, hc, hu, hms, _, _⟩ := redo_fields s rs lastUndo hrs
  rw [findMissionIdx_absent _ _ habsent] at hms
  refine ⟨hms, hc, ?_, hu⟩
  rw [hr, hrs, List.dropLast_concat]

/-! ## Every action names a mission of the catalog -/

section Named

variable [LinearOrderedField K]

theorem actionsNamed_step (env : Env K) (s : AppState K) (ev : Event K)
    (h : HistoryInv s ∧ ActionsNamed s) :
    HistoryInv (step env s ev) ∧ ActionsNamed (step env s ev) := by
  obtain ⟨hH, hN⟩ := h
  refine ⟨historyInv_step env s ev hH, ?_⟩
  intro a ha
  rw [find_of_missionsStep _ _ (missionsStep_step env s ev)]
  cases ev with
  | submit inp =>
    rcases submit_cases inp s with
      h0 | ⟨i, tll, mission, hi, _, hmi, _, _, _, hu, hr, _, _⟩
    · simp only [step] at ha
      rw [h0] at ha
      exact hN a ha
    · simp only [step] at ha
      rw [hu, hr, List.mem_append, List.mem_singleton] at ha
      rcases ha with (ha | ha) | ha
      · exact hN a (Or.inl ha)
      · subst ha
        obtain ⟨m, hm1, hfind⟩ := hH.active i hi
        rw [hmi] at hm1
        cases hm1
        show findMissionIdx mission.id s.missions ≠ none
        rw [hfind]
        simp
      · cases ha
  | undo =>
    rcases List.eq_nil_or_concat s.undoStack with h0 | ⟨us, a0, h0⟩
    · simp only [step] at ha
      rw [undo_nil s h0] at ha
      exact hN a ha
    · rw [List.concat_eq_append] at h0
      obtain ⟨hu, _, hr, _, _, _⟩ := undo_fields s us a0 h0
      simp only [step] at ha
      rw [hu, hr, List.mem_append, List.mem_singleton] at ha
      rcases ha with ha | ha | ha
      · exact hN a (Or.inl (by rw [h0]; exact List.mem_append_left _ ha))
      · exact hN a (Or.inr ha)
      · subst ha
        exact hN a (Or.inl (by rw [h0]; simp))
  | redo =>
    rcases List.eq_nil_or_concat s.redoStack with h0 | ⟨rs, a0, h0⟩
    · simp only [step] at ha
      rw [redo_empty_unchanged s h0] at ha
      exact hN a ha
    · rw [List.concat_eq_append] at h0
      obtain ⟨hr, _, hu, _, _, _⟩ := redo_fields s rs a0 h0
      simp only [step] at ha
      rw [hu, hr, List.mem_append, List.mem_singleton] at ha
      rcases ha with (ha | ha) | ha
      · exact hN a (Or.inl ha)
      · subst ha
        exact hN a0 (Or.inr (by rw [h0]; simp))
      · exact hN a (Or.inr (by rw [h0]; exact List.mem_append_left _ ha))
  | selectMission missionId =>
    have hf := step_frame env s (Event.selectMission missionId) (fun _ => by simp)
      (by simp) (by simp)
    rw [hf.2.2.1, hf.2.2.2] at ha
    exact hN a ha
  | backToMissionList =>
    have hf := step_frame env s Event.backToMissionList (fun _ => by simp)
      (by simp) (by simp)
    rw [hf.2.2.1, hf.2.2.2] at ha
    exact hN a ha
  | mapClick latlng =>
    have hf := step_frame env s (Event.mapClick latlng) (fun _ => by simp)
      (by simp) (by simp)
    rw [hf.2.2.1, hf.2.2.2] at ha
    exact hN a ha
  | drag latlng =>
    have hf := step_frame env s (Event.drag latlng) (fun _ => by simp)
      (by simp) (by simp)
    rw [hf.2.2.1, hf.2.2.2] at ha
    exact hN a ha
  | dragend latlng =>
    have hf := step_frame env s (Event.dragend latlng) (fun _ => by simp)
      (by simp) (by simp)
    rw [hf.2.2.1, hf.2.2.2] at ha
    exact hN a ha

/-- In a state reached from the freshly loaded catalog every action of the undo stack and
of the redo stack names a mission of the catalog: an action whose mission is missing
does not arise there. -/
theorem actionsNamed_reachable (env : Env K) (userId userName : Option String)
    (catalog : List (Mission K)) (s : AppState K)
    (h : Reachable env userId userName catalog s) :
    ∀ a, a ∈ s.undoStack ∨ a ∈ s.redoStack → ∃ m ∈ s.missions, m.id = a.missionId := by
  obtain ⟨events, rfl⟩ := h
  have h0 : HistoryInv (initialState userId userName catalog) ∧
      ActionsNamed (initialState userId userName catalog) := by
    refine ⟨historyInv_initial userId userName catalog, ?_⟩
    intro a ha
    rcases ha with ha | ha <;> cases ha
  have hN := (run_invariant env (fun s => HistoryInv s ∧ ActionsNamed s)
    (actionsNamed_step env) events _ h0).2
  intro a ha
  cases hfind : findMissionIdx a.missionId
      (run env (initialState userId userName catalog) events).missions with
  | none => exact absurd hfind (hN a ha)
  | some j =>
    obtain ⟨m, hm, hid⟩ := findMissionIdx_some _ _ _ hfind
    exact ⟨m, List.getElem?_mem hm, hid⟩

end Named

/-! ## The count of the mission after an undo -/

section Undone

variable [LinearOrderedField K]

/-- C22: in every state reached from a freshly loaded catalog with a non-empty undo stack,
the top action names a mission M of the catalog, M counts at least one entry, and
`undoLastSubmission` leaves M with `entriesCollected = max(old value - 1, 0)`: one lower
and not below zero; M gets status `pending` if it was `completed` and the new count is
below `required_count`, and keeps its status otherwise. -/
theorem undo_never_below_zero (env : Env K) (userId userName : Option String)
    (catalog : List (Mission K)) (s : AppState K)
    (hreach : Reachable env userId userName catalog s) (hne : s.undoStack ≠ []) :
    ∃ (lastAction : Action K) (j : Nat) (mission m1 : Mission K),
      s.undoStack.getLast? = some lastAction ∧
      findMissionIdx lastAction.missionId s.missions = some j ∧
      s.missions[j]? = some mission ∧ mission.id = lastAction.missionId ∧
      (undoLastSubmission s).missions[j]? = some m1 ∧
      1 ≤ mission.entriesCollected ∧
      m1.entriesCollected = max (mission.entriesCollected - 1) 0 ∧
      0 ≤ m1.entriesCollected ∧
      m1.status =
        (if mission.status = "completed" ∧ m1.entriesCollected < mission.required_count
         then "pending" else mission.status) := by
  have hH := historyInv_reachable env userId userName catalog s hreach
  have hC := countedFound_reachable env userId userName catalog s hreach
  rcases List.eq_nil_or_concat s.undoStack with h0 | ⟨us, lastAction, hus⟩
  · exact absurd h0 hne
  rw [List.concat_eq_append] at hus
  have htop : s.undoStack.getLast? = some lastAction := by
    rw [hus, List.getLast?_concat]
  obtain ⟨hcd, _, _⟩ := mirror_top s hH.mirror us lastAction hus
  have hname : lastAction.missionId = lastAction.entry._mission_id :=
    hH.mirror.undoIds lastAction (by rw [hus]; simp)
  have hcount : 1 ≤ (countForMission s.collectedData lastAction.missionId : Int) := by
    rw [hcd, countForMission_snoc, if_pos hname.symm]
    push_cast
    omega
  cases hfind : findMissionIdx lastAction.missionId s.missions with
  | none =>
    -- the entry was counted by the mission that was active when it was submitted
    obtain ⟨m, hmem, hmid⟩ := actionsNamed_reachable env userId userName catalog s hreach
      lastAction (Or.inl (by rw [hus]; simp))
    obtain ⟨k, hk⟩ := List.mem_iff_getElem?.mp hmem
    exact absurd hmid (findMissionIdx_none _ _ hfind k m hk)
  | some j =>
    obtain ⟨mission, hm, hid⟩ := findMissionIdx_some _ _ _ hfind
    have hold : 1 ≤ mission.entriesCollected := by
      rw [hC lastAction.missionId j mission hfind hm]
      exact hcount
    have hnew : (reverseSubmission mission).entriesCollected =
        mission.entriesCollected - 1 := reverseSubmission_count mission
    refine ⟨lastAction, j, mission, reverseSubmission mission, htop, hfind, hm, hid,
      undo_found_mission s lastAction j mission htop hfind hm, hold, ?_, ?_, ?_⟩
    · rw [hnew, max_eq_left (by omega)]
    · rw [hnew]; omega
    · rw [hnew]
      unfold reverseSubmission
      dsimp only
      split <;> rfl

end Undone

/-! ## The scenario of the specification -/

/-- C21: the scenario, for any distance function that puts the three points at 5 m, 25 m
and 10 m from the target of the mission (radius 20, two entries required).  Placing at 5 m
and submitting A, whose description has 12 characters, gives one entry collected and
status `pending`; the click at 25 m changes nothing; placing at 10 m and submitting the
second entry gives two collected and status `completed`; undo gives one collected, status
`pending`, the ledger with A only and a redo stack of length 1; redo gives two collected,
status `completed` and the ledger with A and the second entry as it was, with its id and
its timestamps. -/
theorem scenario_runs (env : Env ℚ) (userId userName : Option String)
    (pA pX pB : LatLng ℚ) (inpA inpB : SubmitInput ℚ)
    (hA : env.distanceTo demoMission.target pA = 5)
    (hX : env.distanceTo demoMission.target pX = 25)
    (hB : env.distanceTo demoMission.target pB = 10)
    (hdA : jsLength (jsTrim inpA.descriptionInput) = 12)
    (hdB : 10 ≤ jsLength (jsTrim inpB.descriptionInput)) :
    let s1 := run env (initialState userId userName [demoMission])
      [Event.selectMission "m1", Event.mapClick pA, Event.submit inpA]
    let s2 := step env s1 (Event.mapClick pX)
    let s3 := run env s2 [Event.mapClick pB, Event.submit inpB]
    let s4 := step env s3 Event.undo
    let s5 := step env s4 Event.redo
    (s1.missions.map (fun m => (m.entriesCollected, m.status)) = [(1, "pending")] ∧
      s1.collectedData.length = 1) ∧
    s2 = s1 ∧
    (s3.missions.map (fun m => (m.entriesCollected, m.status)) = [(2, "completed")] ∧
      ∃ entryB, s3.collectedData = s1.collectedData ++ [entryB] ∧
        entryB.id = generateUUID inpB.draws ∧ entryB.submitted_at = inpB.now1 ∧
        entryB.updated_at = inpB.now2 ∧ entryB.last_activity_at = inpB.now3) ∧
    (s4.missions.map (fun m => (m.entriesCollected, m.status)) = [(1, "pending")] ∧
      s4.collectedData = s1.collectedData ∧ s4.redoStack.length = 1) ∧
    (s5.missions.map (fun m => (m.entriesCollected, m.status)) = [(2, "completed")] ∧
      s5.collectedData = s3.collectedData) := by
  have hvA : validateForm inpA.descriptionInput = [] :=
    (validateForm_eq_nil_iff _).mpr (by omega)
  have hvB : validateForm inpB.descriptionInput = [] :=
    (validateForm_eq_nil_iff _).mpr hdB
  have hA1 : env.distanceTo { lat := 27 / 4, lng := 31339 / 250 } pA = 5 := hA
  have hX1 : env.distanceTo { lat := 27 / 4, lng := 31339 / 250 } pX = 25 := hX
  have hB1 : env.distanceTo { lat := 27 / 4, lng := 31339 / 250 } pB = 10 := hB
  intro s1 s2 s3 s4 s5
  simp only [s1, s2, s3, s4, s5]
  norm_num [run, step, initialState, loadMissions, selectMission, findMissionIdx,
    demoMission, clearMapElements, handleMapClick, boundaryRadiusOf, hA1, hX1, hB1,
    submitLocation, hvA, hvB, modifyAt, recordSubmission, undoLastSubmission, splice1,
    updateFoundMission, reverseSubmission, redoLastUndo, redoSubmission, newEntry]

theorem scenario_distances :
    demoEnv.distanceTo demoMission.target pointA = 5 ∧
    demoEnv.distanceTo demoMission.target pointX = 25 ∧
    demoEnv.distanceTo demoMission.target pointB = 10 := by
  refine ⟨?_, ?_, ?_⟩ <;>
    norm_num [demoEnv, demoDistance, demoMission, pointA, pointX, pointB, abs_of_neg]

/-- Witness of C21 (`scenario_runs`): the three points 5 m, 25 m and 10 m north of the
target by the distance of the session. -/
theorem scenario_runs_witness :
    (demoEnv.distanceTo demoMission.target pointA = 5 ∧
      demoEnv.distanceTo demoMission.target pointX = 25 ∧
      demoEnv.distanceTo demoMission.target pointB = 10 ∧
      jsLength (jsTrim inputA.descriptionInput) = 12 ∧
      10 ≤ jsLength (jsTrim inputB.descriptionInput)) ∧
    (let s1 := run demoEnv (initialState (some "T-01") (some "Ana") [demoMission])
      [Event.selectMission "m1", Event.mapClick pointA, Event.submit inputA]
    let s2 := step demoEnv s1 (Event.mapClick pointX)
    let s3 := run demoEnv s2 [Event.mapClick pointB, Event.submit inputB]
    let s4 := step demoEnv s3 Event.undo
    let s5 := step demoEnv s4 Event.redo
    (s1.missions.map (fun m => (m.entriesCollected, m.status)) = [(1, "pending")] ∧
      s1.collectedData.length = 1) ∧
    s2 = s1 ∧
    (s3.missions.map (fun m => (m.entriesCollected, m.status)) = [(2, "completed")] ∧
      ∃ entryB, s3.collectedData = s1.collectedData ++ [entryB] ∧
        entryB.id = generateUUID inputB.draws ∧ entryB.submitted_at = inputB.now1 ∧
        entryB.updated_at = inputB.now2 ∧ entryB.last_activity_at = inputB.now3) ∧
    (s4.missions.map (fun m => (m.entriesCollected, m.status)) = [(1, "pending")] ∧
      s4.collectedData = s1.collectedData ∧ s4.redoStack.length = 1) ∧
    (s5.missions.map (fun m => (m.entriesCollected, m.status)) = [(2, "completed")] ∧
      s5.collectedData = s3.collectedData)) :=
  ⟨⟨scenario_distances.1, scenario_distances.2.1, scenario_distances.2.2, by decide,
      by decide⟩,
    scenario_runs demoEnv (some "T-01") (some "Ana") pointA pointX pointB inputA inputB
      scenario_distances.1 scenario_distances.2.1 scenario_distances.2.2 (by decide)
      (by decide)⟩

/-! ## The session after one and after two submissions -/

/-- Witness of C25 (`ledger_mirrors_undo_stack`): the session after one submission. -/
theorem ledger_mirrors_undo_stack_witness :
    Reachable demoEnv (some "T-01") (some "Ana") [demoMission] submittedState ∧
    submittedState.collectedData.length = submittedState.undoStack.length ∧
    ∀ (k : Nat) (a : Action ℚ), submittedState.undoStack[k]? = some a →
      a.entryIndex = (k : Int) ∧
      ∃ e, submittedState.collectedData[k]? = some e ∧ a.entry = e ∧
        a.missionId = e._mission_id :=
  ⟨demo_reachable _,
    ledger_mirrors_undo_stack demoEnv (some "T-01") (some "Ana") [demoMission]
      submittedState (demo_reachable _)⟩

theorem completedState_facts :
    completedState.undoStack.length = 2 ∧
    completedState.missions.map
      (fun m => (m.entriesCollected, m.status, m.required_count)) = [(2, "completed", 2)] ∧
    (undoLastSubmission completedState).missions.map
      (fun m => (m.entriesCollected, m.status)) = [(1, "pending")] := by
  have hvA : validateForm inputA.descriptionInput = [] := by decide
  have hvB : validateForm inputB.descriptionInput = [] := by decide
  have hA1 : demoEnv.distanceTo { lat := 27 / 4, lng := 31339 / 250 } pointA = 5 :=
    scenario_distances.1
  have hB1 : demoEnv.distanceTo { lat := 27 / 4, lng := 31339 / 250 } pointB = 10 :=
    scenario_distances.2.2
  norm_num [completedState, run, step, initialState, loadMissions, selectMission,
    findMissionIdx, demoMission, clearMapElements, handleMapClick, boundaryRadiusOf,
    hA1, hB1, submitLocation, hvA, hvB, modifyAt, recordSubmission, undoLastSubmission,
    splice1, updateFoundMission, reverseSubmission, newEntry]

/-- Witness of C22 (`undo_never_below_zero`): after the two submissions of the scenario the
mission counts 2 of 2 entries and is completed; the undo leaves it at 1 and pending. -/
theorem undo_never_below_zero_witness :
    Reachable demoEnv (some "T-01") (some "Ana") [demoMission] completedState ∧
    completedState.undoStack ≠ [] ∧
    completedState.missions.map
      (fun m => (m.entriesCollected, m.status, m.required_count)) = [(2, "completed", 2)] ∧
    (undoLastSubmission completedState).missions.map
      (fun m => (m.entriesCollected, m.status)) = [(1, "pending")] ∧
    ∃ (lastAction : Action ℚ) (j : Nat) (mission m1 : Mission ℚ),
      completedState.undoStack.getLast? = some lastAction ∧
      findMissionIdx lastAction.missionId completedState.missions = some j ∧
      completedState.missions[j]? = some mission ∧ mission.id = lastAction.missionId ∧
      (undoLastSubmission completedState).missions[j]? = some m1 ∧
      1 ≤ mission.entriesCollected ∧
      m1.entriesCollected = max (mission.entriesCollected - 1) 0 ∧
      0 ≤ m1.entriesCollected ∧
      m1.status =
        (if mission.status = "completed" ∧ m1.entriesCollected < mission.required_count
         then "pending" else mission.status) :=
  ⟨⟨_, rfl⟩, List.ne_nil_of_length_pos (by rw [completedState_facts.1]; decide),
    completedState_facts.2.1, completedState_facts.2.2,
    undo_never_below_zero demoEnv (some "T-01") (some "Ana") [demoMission] completedState
      ⟨_, rfl⟩ (List.ne_nil_of_length_pos (by rw [completedState_facts.1]; decide))⟩

end Proofs

end Collector
